import Mathlib

/-!
Verification of the crombird/reddit bot: a shallow embedding of the
mention-extraction engine (`parse.py`), the resolver wrapper (`search.py`),
the Crom API client (`crom_client.py`) and the per-item processing functions
of `bot.py`, together with theorems settling the specification claims.

Python's `re` module is modelled by a small backtracking regular-expression
engine (`Regex` / `matchCore`) covering exactly the constructs used by the
source patterns: character classes, concatenation, alternation, greedy and
lazy repetition, counted repetition, option, one capture group, a
single-character negative lookahead, and the `^`/`$` anchors.  The engine
implements leftmost scanning with Python's backtracking priority (greedy
repetitions try the longer alternative first, lazy ones the shorter,
alternation tries the left branch first).
-/

set_option autoImplicit false

namespace Crombird

/-- Characters Python's `\w` matches, restricted to ASCII (all inputs in this
development are ASCII): letters, digits and underscore. -/
def isWordChar (c : Char) : Bool := c.isAlphanum || c == '_'

/-- Characters Python's `\s` matches, restricted to ASCII. -/
def isSpaceChar (c : Char) : Bool :=
  c == ' ' || c == '\t' || c == '\n' || c == '\r' || c == '\x0b' || c == '\x0c'

/-- `str.lower()` for ASCII strings, character by character (the embedding
avoids `String.toLower`, which does not reduce in the kernel). -/
def strLower (s : String) : String := String.mk (s.data.map Char.toLower)

/-- Worker for `strReplace`; the fuel is the input length (every step
consumes at least one character, since the patterns used are non-empty). -/
def strReplaceAux (pat sub : List Char) : Nat → List Char → List Char
  | _, [] => []
  | 0, l => l
  | fuel + 1, c :: rest =>
      if pat.isPrefixOf (c :: rest) then
        sub ++ strReplaceAux pat sub fuel ((c :: rest).drop pat.length)
      else c :: strReplaceAux pat sub fuel rest

/-- Python `str.replace(pat, sub)`: replace all non-overlapping occurrences,
left to right. -/
def strReplace (s pat sub : String) : String :=
  String.mk (strReplaceAux pat.data sub.data s.data.length s.data)

/-- Python `str.split('/')` on a character list. -/
def splitOnSlash : List Char → List (List Char)
  | [] => [[]]
  | c :: rest =>
      match splitOnSlash rest with
      | [] => [[]]
      | h :: t => if c == '/' then [] :: h :: t else (c :: h) :: t

/-- Python `str.split('/')`. -/
def pySplitSlash (s : String) : List String := (splitOnSlash s.data).map String.mk

/-- Python `'/'.join(...)`. -/
def pyJoinSlash (l : List String) : String :=
  String.mk (List.intercalate ['/'] (l.map String.data))

/-- Abstract syntax of the regular-expression subset used by `parse.py`. -/
inductive Regex where
  | eps
  | cls (p : Char → Bool)
  | seq (a b : Regex)
  | alt (a b : Regex)
  | star (r : Regex)
  | lazyStar (r : Regex)
  | rep (r : Regex) (lo hi : Nat)
  | opt (r : Regex)
  | grp (r : Regex)
  | nla (p : Char → Bool)
  | bos
  | eos

namespace Regex

/-- A single literal character. -/
def chr (c : Char) : Regex := cls (fun x => x == c)

/-- A single literal character, case-insensitively (the `(?i)` flag). -/
def chrCI (c : Char) : Regex := cls (fun x => x == c.toLower || x == c.toUpper)

/-- A literal string (sequence of literal characters). -/
def str (s : String) : Regex := s.data.foldr (fun c r => seq (chr c) r) eps

/-- A literal string, case-insensitively. -/
def strCI (s : String) : Regex := s.data.foldr (fun c r => seq (chrCI c) r) eps

/-- Greedy `+`. -/
def plus (r : Regex) : Regex := seq r (star r)

/-- Lazy `+?`. -/
def lazyPlus (r : Regex) : Regex := seq r (lazyStar r)

end Regex

/-- Result of a match attempt: the end position of the whole match and the
optional span of capture group 1. -/
abbrev MatchRes := Nat × Option (Nat × Nat)

/-- The counted-repetition loop `{lo,hi}` (greedy), parametrised by the
matcher `mr` of the repeated expression.  Structural recursion on `hi`. -/
def matchRep
    (mr : Nat → Option (Nat × Nat) →
      (Nat → Option (Nat × Nat) → Option MatchRes) → Option MatchRes) :
    Nat → Nat → Nat → Option (Nat × Nat) →
    (Nat → Option (Nat × Nat) → Option MatchRes) → Option MatchRes
  | 0, 0, i, g, k => k i g
  | 0, hi + 1, i, g, k =>
      (mr i g (fun j g' => matchRep mr 0 hi j g' k)).orElse (fun _ => k i g)
  | _ + 1, 0, _, _, _ => none
  | lo + 1, hi + 1, i, g, k =>
      mr i g (fun j g' => matchRep mr lo hi j g' k)

/-- One structural layer of the backtracking matcher, mirroring Python's
`re` semantics for the modelled subset.  Iterations of the unbounded
repetitions go through `iter`, which the fuelled wrapper `matchCore`
instantiates with itself at one less fuel. -/
def matchStep (cs : List Char)
    (iter : Regex → Nat → Option (Nat × Nat) →
      (Nat → Option (Nat × Nat) → Option MatchRes) → Option MatchRes) :
    Regex → Nat → Option (Nat × Nat) →
    (Nat → Option (Nat × Nat) → Option MatchRes) → Option MatchRes
  | .eps, i, g, k => k i g
  | .cls p, i, g, k =>
      match cs[i]? with
      | some c => if p c then k (i + 1) g else none
      | none => none
  | .seq a b, i, g, k =>
      matchStep cs iter a i g (fun j g' => matchStep cs iter b j g' k)
  | .alt a b, i, g, k =>
      (matchStep cs iter a i g k).orElse (fun _ => matchStep cs iter b i g k)
  | .star r, i, g, k =>
      (matchStep cs iter r i g (fun j g' =>
          if i < j then iter (.star r) j g' k else none)).orElse (fun _ => k i g)
  | .lazyStar r, i, g, k =>
      (k i g).orElse (fun _ =>
        matchStep cs iter r i g (fun j g' =>
          if i < j then iter (.lazyStar r) j g' k else none))
  | .rep r lo hi, i, g, k =>
      matchRep (fun i' g' k' => matchStep cs iter r i' g' k') lo hi i g k
  | .opt r, i, g, k =>
      (matchStep cs iter r i g k).orElse (fun _ => k i g)
  | .grp r, i, g, k =>
      matchStep cs iter r i g (fun j _ => k j (some (i, j)))
  | .nla p, i, g, k =>
      match cs[i]? with
      | some c => if p c then none else k i g
      | none => k i g
  | .bos, i, g, k => if i == 0 then k i g else none
  | .eos, i, g, k => if i == cs.length then k i g else none

/-- The backtracking matcher.  `fuel` bounds the nesting depth of
unbounded-repetition iterations; since every iteration must consume at
least one character, `cs.length + 2` fuel gives exact Python semantics. -/
def matchCore (cs : List Char) :
    Nat → Regex → Nat → Option (Nat × Nat) →
    (Nat → Option (Nat × Nat) → Option MatchRes) → Option MatchRes
  | 0, _, _, _, _ => none
  | fuel + 1, r, i, g, k => matchStep cs (matchCore cs fuel) r i g k

/-- Attempt a match of `r` starting exactly at position `i` (Python's
`re.match` at a given position). -/
def matchAt (cs : List Char) (r : Regex) (i : Nat) : Option MatchRes :=
  matchCore cs (cs.length + 2) r i none (fun e g => some (e, g))

/-- Python's `re.fullmatch`: the match must consume the entire string. -/
def fullmatchB (r : Regex) (s : String) : Bool :=
  let cs := s.data
  (matchCore cs (cs.length + 2) r 0 none
    (fun e g => if e == cs.length then some (e, g) else none)).isSome

/-- One match found by scanning: start position, end position, group-1 span. -/
abbrev FoundMatch := Nat × MatchRes

/-- Scanning loop of `re.finditer`: try each start position from left to
right, and continue after the end of each (non-overlapping) match; a
zero-width match advances by one. -/
def findIterAux (cs : List Char) (r : Regex) : Nat → Nat → List FoundMatch
  | 0, _ => []
  | fuel + 1, i =>
    if i > cs.length then []
    else
      match matchAt cs r i with
      | some (e, g) =>
          (i, e, g) ::
            (if e ≤ i then findIterAux cs r fuel (i + 1) else findIterAux cs r fuel e)
      | none =>
          if i == cs.length then [] else findIterAux cs r fuel (i + 1)

/-- All non-overlapping matches of `r` in `s`, leftmost first
(Python's `re.finditer`). -/
def findMatches (r : Regex) (s : String) : List FoundMatch :=
  findIterAux s.data r (s.length + 1) 0

/-- The substring of `s` from position `a` (inclusive) to `b` (exclusive). -/
def sliceStr (s : String) (a b : Nat) : String :=
  String.mk ((s.data.drop a).take (b - a))

/-- The group-1 text of every match of `r` in `s`, in match order.  Every
pattern this is applied to has a capture group that always participates in
the match; the empty-string fallback is never reached. -/
def findGroup1 (r : Regex) (s : String) : List String :=
  (findMatches r s).map (fun m =>
    match m.2.2 with
    | some (a, b) => sliceStr s a b
    | none => "")

/-- Python's `re.sub(r, "", s)`: remove every non-overlapping match. -/
def subAll (r : Regex) (s : String) : String :=
  let spans := (findMatches r s).map (fun m => (m.1, m.2.1))
  String.mk ((s.data.enum.filter
    (fun p => !spans.any (fun sp => sp.1 ≤ p.1 && p.1 < sp.2))).map (fun p => p.2))

/-- Python's `re.search(r, s)` as a Boolean: is there any match? -/
def searchB (r : Regex) (s : String) : Bool :=
  !(findMatches r s).isEmpty

/-! ## parse.py: data model and pattern tables -/

/-- `ParseContext` from `parse.py`. -/
inductive ParseContext where
  | SUBMISSION_TITLE
  | SUBMISSION_SELFTEXT
  | COMMENT_BODY
deriving DecidableEq, Repr

/-- `SearchQueryType` from `parse.py`. -/
inductive SearchQueryType where
  | URL
  | FREEFORM
  | BARE
deriving DecidableEq, Repr

/-- The `SearchQuery` namedtuple from `parse.py`.  `site_url` is an
`Option String` because `bot.py` constructs one query with `site_url=None`. -/
structure SearchQuery where
  type : SearchQueryType
  value : String
  site_url : Option String
deriving DecidableEq, Repr

/-- The primary site URL used as the default `site_url` throughout
`parse.py`. -/
def primarySite : String := "http://scp-wiki.wikidot.com"

/-- Character class `[- ]`. -/
def sepCls : Regex := .cls (fun c => c == '-' || c == ' ')

/-- Character class `\d` (ASCII digits). -/
def digitCls : Regex := .cls Char.isDigit

/-- Character class `[A-Z0-9]` under the `(?i)` flag. -/
def alnumCls : Regex := .cls Char.isAlphanum

/-- `\d{3,4}`: a 3- or 4-digit catalog number. -/
def numPart : Regex := .rep digitCls 3 4

/-- Builds `(?i)SCP[- ]?(<core>)(?!\w)`, the common shape of the entries of
`_INTERNATIONAL_REGEXES` in `parse.py`. -/
def intlShape (core : Regex) : Regex :=
  .seq (.strCI "SCP") (.seq (.opt sepCls) (.seq (.grp core) (.nla isWordChar)))

/-- Core `\d{3,4}[- ]XX` of the suffix-marker international patterns. -/
def numThenMarker (marker : String) : Regex :=
  .seq numPart (.seq sepCls (.strCI marker))

/-- Core `XX[- ]\d{3,4}` of the leading-marker international patterns. -/
def markerThenNum (marker : String) : Regex :=
  .seq (.strCI marker) (.seq sepCls numPart)

/-- Core `\d{3,4}-?IT` of the Italian pattern: the source requires that the
separator, when present, be a dash (not a space) so that the English word
"it" does not collide, and makes the dash itself optional. -/
def coreIT : Regex := .seq numPart (.seq (.opt (.chr '-')) (.strCI "IT"))

/-- Core `\d{3,4}[- ]?TH` of the Thai pattern (optional separator). -/
def coreTH : Regex := .seq numPart (.seq (.opt sepCls) (.strCI "TH"))

/-- `_INTERNATIONAL_REGEXES` from `parse.py`: the ordered list of
(pattern, site) pairs. -/
def internationalRegexes : List (Regex × String) :=
  [ (intlShape (numThenMarker "FR"), "http://fondationscp.wikidot.com"),
    (intlShape coreIT, "http://fondazionescp.wikidot.com"),
    (intlShape (markerThenNum "ES"), "http://lafundacionscp.wikidot.com"),
    (intlShape (numThenMarker "CS"), "http://scp-cs.wikidot.com"),
    (intlShape (numThenMarker "SK"), "http://scp-cs.wikidot.com"),
    (intlShape (numThenMarker "EL"), "http://scp-el.wikidot.com"),
    (intlShape (numThenMarker "ID"), "http://scp-id.wikidot.com"),
    (intlShape (numThenMarker "INT"), "http://scp-int.wikidot.com"),
    (intlShape (numThenMarker "JP"), "http://scp-jp.wikidot.com"),
    (intlShape (markerThenNum "PL"), "http://scp-pl.wikidot.com"),
    (intlShape (numThenMarker "PT"), "http://scp-pt-br.wikidot.com"),
    (intlShape (numThenMarker "RU"), "http://scp-ru.wikidot.com"),
    (intlShape coreTH, "http://scp-th.wikidot.com"),
    (intlShape (numThenMarker "UA"), "http://scp-ukrainian.wikidot.com"),
    (intlShape (numThenMarker "VN"), "http://scp-vn.wikidot.com"),
    (intlShape (markerThenNum "CN"), "http://scp-wiki-cn.wikidot.com"),
    (intlShape (numThenMarker "DE"), "http://scp-wiki-de.wikidot.com"),
    (intlShape (markerThenNum "ZH"), "http://scp-zh-tr.wikidot.com"),
    (intlShape (numThenMarker "KO"), "http://scpko.wikidot.com") ]

/-- One hyphenated suffix block `-[A-Z0-9]+` of the bare pattern. -/
def sfxBlk : Regex := .seq (.chr '-') (.plus alnumCls)

/-- The capture group `(?:SCP)[- ]\d{3,4}(?:-[A-Z0-9]+)*` of
`_BARE_MATCH_REGEX`. -/
def bareBody : Regex :=
  .seq (.strCI "SCP") (.seq sepCls (.seq numPart (.star sfxBlk)))

/-- `_BARE_MATCH_REGEX` from `parse.py`:
`(?i)((?:SCP)[- ]\d{3,4}(?:-[A-Z0-9]+)*)(?!\w)`. -/
def bareMatchRegex : Regex :=
  .seq (.grp bareBody) (.nla isWordChar)

/-- `_MODERN_MATCH_REGEX` from `parse.py`: `\[\[([^\]]*?)\]\]`. -/
def modernMatchRegex : Regex :=
  .seq (.chr '[') (.seq (.chr '[')
    (.seq (.grp (.lazyStar (.cls (fun c => !(c == ']')))))
      (.seq (.chr ']') (.chr ']'))))

/-- `_SCP2_MATCH` from `parse.py`: `(?:^|[^0-9])(2)(?:[^0-9]|$)`. -/
def scp2Match : Regex :=
  .seq (.alt .bos (.cls (fun c => !c.isDigit)))
    (.seq (.grp (.chr '2')) (.alt (.cls (fun c => !c.isDigit)) .eos))

/-- `_FALSE_POSITIVES` from `parse.py`, in priority order: spoiler tags
`>!(.+?)!<` (DOTALL), URLs `(?i)(?:http|https)://[^ ]*`, decimal numbers
`(?i)\d+[.,]\d+`, and username mentions `(?i)/?u/[A-Z0-9_-]+`. -/
def falsePositives : List Regex :=
  [ .seq (.chr '>') (.seq (.chr '!')
      (.seq (.grp (.lazyPlus (.cls (fun _ => true))))
        (.seq (.chr '!') (.chr '<')))),
    .seq (.alt (.strCI "http") (.strCI "https"))
      (.seq (.str "://") (.star (.cls (fun c => !(c == ' '))))),
    .seq (.plus digitCls)
      (.seq (.cls (fun c => c == '.' || c == ',')) (.plus digitCls)),
    .seq (.opt (.chr '/')) (.seq (.chrCI 'u')
      (.seq (.chr '/') (.plus (.cls (fun c => c.isAlphanum || c == '_' || c == '-'))))) ]

/-! ## parse.py: the parse function -/

/-- Model of the external `marko` markdown renderer composed with HTML
unescaping (`sanitize_markdown.py`), restricted to its behaviour on plain
single-paragraph prose containing no markdown block or inline constructs and
no HTML entities: such text parses as one loose paragraph, rendered as its
raw text followed by a newline.  Every text this development feeds through
it is of that form. -/
def sanitize_markdown (text : String) : String := text ++ "\n"

/-- The generator expression inside `parse`: the site for an explicit
`[[...]]` match is the first international pattern that fullmatches the
inner text, defaulting to the primary site. -/
def findIntlSite (inner : String) : String :=
  match internationalRegexes.find? (fun p => fullmatchB p.1 inner) with
  | some p => p.2
  | none => primarySite

/-- Whether `re.sub(r"\s", "", inner)` is non-empty: the bracket content
check in `parse`. -/
def hasNonWS (inner : String) : Bool := inner.data.any (fun c => !isSpaceChar c)

/-- The explicit-bracket stage of `parse`: one `FREEFORM` query per
`[[...]]` match whose inner text is not all whitespace. -/
def modernStage (t : String) : List SearchQuery :=
  (findGroup1 modernMatchRegex t).filterMap (fun inner =>
    if hasNonWS inner then
      some ⟨SearchQueryType.FREEFORM, inner, some (findIntlSite inner)⟩
    else none)

/-- The international-variant loop of `parse`: for each pattern in order,
emit one `BARE` query per match and remove the matches before testing the
next pattern.  Returns the queries and the remaining text. -/
def intlStage : List (Regex × String) → String → List SearchQuery × String
  | [], t => ([], t)
  | (re, site) :: rest, t =>
      let ms := findGroup1 re t
      if ms.isEmpty then intlStage rest t
      else
        let next := intlStage rest (subAll re t)
        (ms.map (fun v => ⟨SearchQueryType.BARE, v, some site⟩) ++ next.1, next.2)

/-- The bare primary-site stage of `parse`: one `FREEFORM` query per match
of `_BARE_MATCH_REGEX`. -/
def bareStage (t : String) : List SearchQuery :=
  (findGroup1 bareMatchRegex t).map (fun v =>
    ⟨SearchQueryType.FREEFORM, v, some primarySite⟩)

/-- `parse` from `parse.py`.  `month` and `day` stand for
`datetime.today()`, which the source reads ambiently for the April-fools
rule. -/
def parse (text : String) (context : ParseContext) (month day : Nat) :
    List SearchQuery :=
  let remaining0 :=
    if context ≠ ParseContext.SUBMISSION_TITLE then sanitize_markdown text else text
  let queries0 := modernStage remaining0
  let remaining1 := subAll modernMatchRegex remaining0
  let remaining2 := falsePositives.foldl (fun t re => subAll re t) remaining1
  let intl := intlStage internationalRegexes remaining2
  let queries1 := queries0 ++ intl.1
  let remaining3 := intl.2
  let queries2 := queries1 ++ bareStage remaining3
  if context = ParseContext.COMMENT_BODY ∧ day = 1 ∧ month = 4 ∧
      searchB scp2Match remaining3 then
    queries2 ++ [⟨SearchQueryType.BARE, "2", some primarySite⟩]
  else
    queries2

/-! ## crom_client.py: the Crom API client

The OAuth session is external; its `post` method is modelled as a function
from the attempt index to an outcome.  `α` is the type of the `data`
payload of one query response. -/

/-- A single query response object in the API reply body:
the `data` value and the optional `errors` list. -/
structure QueryResponse (α : Type) where
  data : α
  errors : Option (List String)

/-- The JSON body of an API reply: either a list of query responses or some
non-list value. -/
inductive BodyVal (α : Type) where
  | list (rs : List (QueryResponse α))
  | notList

/-- Outcome of one `self._session.post(...)` call (plus the immediately
following `raise_for_status`/`json()` steps): a body, a raised
`TokenExpiredError`, or some other raised exception. -/
inductive PostOutcome (α : Type) where
  | ok (raise_status : Bool) (body : BodyVal α)
  | tokenExpired
  | exc (msg : String)

/-- Exceptions `query_batch` can propagate. -/
inductive ClientErr where
  | httpStatus
  | cromAPI
  | exc (msg : String)
deriving DecidableEq, Repr

/-- One iteration of the `for i in range(2)` body of
`CromClient.query_batch`: `none` means a `TokenExpiredError` was raised and
caught (the `except` branch refreshes the token and the loop continues);
otherwise the iteration returns data or raises. -/
def clientAttempt {α : Type} (out : PostOutcome α) :
    Option (Except ClientErr (List α)) :=
  match out with
  | .tokenExpired => none
  | .exc m => some (.error (.exc m))
  | .ok raise_status body =>
      if raise_status then some (.error .httpStatus)
      else
        match body with
        | .notList => some (.error .cromAPI)
        | .list rs =>
            if rs.any (fun r =>
                match r.errors with
                | some es => !es.isEmpty
                | none => false) then
              some (.error .cromAPI)
            else some (.ok (rs.map (fun r => r.data)))

/-- `CromClient.query_batch`: at most two attempts (the `for i in range(2)`
loop), refreshing the token after a caught `TokenExpiredError`.  The result
`Except.ok none` models the implicit `return None` reached when both
attempts raise `TokenExpiredError` and the loop falls through. -/
def query_batch {α : Type} (post : Nat → PostOutcome α) :
    Except ClientErr (Option (List α)) :=
  match clientAttempt (post 0) with
  | some (.ok ds) => .ok (some ds)
  | some (.error e) => .error e
  | none =>
      match clientAttempt (post 1) with
      | some (.ok ds) => .ok (some ds)
      | some (.error e) => .error e
      | none => .ok none

/-! ## search.py: the resolver wrapper -/

/-- A wikidot page object in a Crom API response (only the URL is relevant
to `search`). -/
structure Page where
  url : String
deriving DecidableEq, Repr

/-- A user object in a Crom API response (only the display name is relevant
to `search`). -/
structure CromUser where
  displayName : String
deriving DecidableEq, Repr

/-- Which of the two GraphQL documents a built query uses. -/
inductive QueryDoc where
  | pageByUrl
  | pageByFreeform
deriving DecidableEq, Repr

/-- A built GraphQL query: the document and its variables dictionary. -/
structure GqlQuery where
  doc : QueryDoc
  vars : List (String × Option String)
deriving DecidableEq, Repr

/-- Python string interpolation of a possibly-None value (an f-string
renders `None` as the text `None`). -/
def pyStr (v : Option String) : String :=
  match v with
  | some s => s
  | none => "None"

/-- The per-query GraphQL construction inside `search`: one branch per
`SearchQueryType`. -/
def buildGql (q : SearchQuery) : GqlQuery :=
  match q.type with
  | .URL => ⟨.pageByUrl, [("url", some (strLower q.value))]⟩
  | .BARE =>
      let url_segment := strReplace (strLower q.value) " " "-"
      ⟨.pageByUrl, [("url", some (pyStr q.site_url ++ "/scp-" ++ url_segment))]⟩
  | .FREEFORM =>
      ⟨.pageByFreeform, [("text", some (strLower q.value)), ("siteUrl", q.site_url)]⟩

/-- One Crom API response object as consumed by `search`
(`response.get(...)` on each key). -/
structure RespObj where
  wikidotPage : Option Page
  matchingPages : Option (List Page)
  searchPages : Option (List Page)
  searchUsers : Option (List CromUser)
deriving Repr

/-- A resolved result as built by `search`: the `{"user": ...}` or
`{"wikidot_page": ..., "matching_pages": ...}` dicts. -/
inductive SearchResult where
  | user (u : CromUser)
  | page (wikidot_page : Option Page) (matching_pages : Option (List Page))
deriving DecidableEq, Repr

/-- The identity mapper passed to `_uniq_by` in `search`: page URL for page
results, display name for user results.  No lowercasing is applied.  (On a
page result whose `wikidot_page` is `None` the Python lambda would raise
`KeyError`; that case is modelled as a `none` key and is not exercised
here.) -/
def resultKey : SearchResult → Option String
  | .page (some p) _ => some p.url
  | .page none _ => none
  | .user u => some u.displayName

/-- `_uniq_by` from `search.py` with its `tracking` set made explicit. -/
def uniqByAux {α κ : Type} [DecidableEq κ] (mapper : α → κ) :
    List α → List κ → List α
  | [], _ => []
  | x :: xs, seen =>
      let key := mapper x
      if key ∈ seen then uniqByAux mapper xs seen
      else x :: uniqByAux mapper xs (key :: seen)

/-- `_uniq_by` from `search.py`: remove duplicates by a mapping function,
preserving first-seen order. -/
def uniqBy {α κ : Type} [DecidableEq κ] (mapper : α → κ) (items : List α) : List α :=
  uniqByAux mapper items []

/-- Structural worker for `_chunks`: the fuel is an upper bound on the
list length, so the `0, _ :: _` case is never reached in `chunksOf`. -/
def chunksOfAux {α : Type} (n : Nat) : Nat → List α → List (List α)
  | _, [] => []
  | 0, _ :: _ => []
  | fuel + 1, x :: xs => (x :: xs).take n :: chunksOfAux n fuel (xs.drop (n - 1))

/-- `_chunks` from `search.py`: successive `n`-sized chunks. -/
def chunksOf {α : Type} (n : Nat) (l : List α) : List (List α) :=
  chunksOfAux n l.length l

/-- The external Crom client as seen by `search`: `query_batch` for the
chunked lookups and `query` for the follow-up full-page fetch.  Claims about
`search` do not involve client exceptions, so the oracle is total. -/
structure CromOracle where
  query_batch : List GqlQuery → List RespObj
  query : GqlQuery → RespObj

/-- The result-shaping branch of `search` for one `(i, response)` pair:
user hit (first searched user, when its display name matches the query
case-insensitively), else direct page, else follow-up fetch of the first
searched page, else nothing. -/
def shapeResult (oracle : CromOracle) (search_queries : List SearchQuery)
    (i : Nat) (response : RespObj) : Option SearchResult :=
  let userHit :=
    match response.searchUsers with
    | some (u :: _) =>
        if strLower u.displayName ==
            strLower ((search_queries.getD i ⟨.URL, "", none⟩).value) then
          some u
        else none
    | _ => none
  match userHit with
  | some u => some (.user u)
  | none =>
      match response.wikidotPage with
      | some p => some (.page (some p) response.matchingPages)
      | none =>
          match response.searchPages with
          | some (sp :: _) =>
              let full := oracle.query ⟨.pageByUrl, [("pageUrl", some sp.url)]⟩
              some (.page full.wikidotPage full.matchingPages)
          | _ => none

/-- The response-gathering loop of `search`: issue the built queries chunk
by chunk (fixed size 25) and concatenate the responses. -/
def searchResponses (oracle : CromOracle) (search_queries : List SearchQuery) :
    List RespObj :=
  (chunksOf 25 search_queries).foldl
    (fun acc group => acc ++ oracle.query_batch (group.map buildGql)) []

/-- The result-shaping loop of `search`. -/
def shapedResults (oracle : CromOracle) (search_queries : List SearchQuery) :
    List SearchResult :=
  (searchResponses oracle search_queries).enum.filterMap
    (fun p => shapeResult oracle search_queries p.1 p.2)

/-- `search` from `search.py`: issue the built queries in chunks of 25,
shape the responses, and deduplicate by `resultKey` preserving first-seen
order. -/
def search (oracle : CromOracle) (search_queries : List SearchQuery) :
    List SearchResult :=
  uniqBy resultKey (shapedResults oracle search_queries)

/-! ## urllib.parse: the URL functions used by bot.py

`_normalize_permalink` in `bot.py` uses `urljoin`, `urlparse` and
`urlsplit` from Python's standard library; these are modelled below
following CPython's `urllib/parse.py` algorithm (without the IPv6 bracket
validation, percent-coercion and params-free legacy cases that the inputs
here never reach). -/

/-- The six components of `urlparse` (`params` is empty for `urlsplit`). -/
structure UrlParts where
  scheme : String
  netloc : String
  path : String
  params : String
  query : String
  fragment : String
deriving DecidableEq, Repr

/-- Characters allowed in a URL scheme after the initial letter. -/
def schemeChar (c : Char) : Bool :=
  c.isAlphanum || c == '+' || c == '-' || c == '.'

/-- CPython removes tab, carriage return and newline from URLs before
splitting. -/
def removeUnsafe (url : String) : String :=
  String.mk (url.data.filter (fun c => !(c == '\t' || c == '\r' || c == '\n')))

/-- `urllib.parse.urlsplit` with a default scheme. -/
def urlsplitD (url : String) (default_scheme : String) : UrlParts :=
  let cs := (removeUnsafe url).data
  let schemeRest :=
    match cs.findIdx? (fun c => c == ':') with
    | some i =>
        if 0 < i ∧ (cs.headD ' ').isAlpha ∧ (cs.take i).all schemeChar then
          (strLower (String.mk (cs.take i)), cs.drop (i + 1))
        else (default_scheme, cs)
    | none => (default_scheme, cs)
  let cs1 := schemeRest.2
  let netlocRest :=
    if cs1.take 2 = ['/', '/'] then
      (String.mk ((cs1.drop 2).takeWhile
          (fun c => !(c == '/' || c == '?' || c == '#'))),
        (cs1.drop 2).dropWhile (fun c => !(c == '/' || c == '?' || c == '#')))
    else ("", cs1)
  let cs2 := netlocRest.2
  let preFragment :=
    match cs2.findIdx? (fun c => c == '#') with
    | some i => (cs2.take i, String.mk (cs2.drop (i + 1)))
    | none => (cs2, "")
  let cs3 := preFragment.1
  let preQuery :=
    match cs3.findIdx? (fun c => c == '?') with
    | some i => (cs3.take i, String.mk (cs3.drop (i + 1)))
    | none => (cs3, "")
  ⟨schemeRest.1, netlocRest.1, String.mk preQuery.1, "", preQuery.2, preFragment.2⟩

/-- `urllib.parse._splitparams`: split `;params` off the last path
segment. -/
def splitParams (path : String) : String × String :=
  let cs := path.data
  let barePos :=
    if cs.contains '/' then
      let afterSlash := cs.length - ((cs.reverse.takeWhile (fun c => !(c == '/'))).length)
      match (cs.drop afterSlash).findIdx? (fun c => c == ';') with
      | some i => some (afterSlash + i)
      | none => none
    else
      cs.findIdx? (fun c => c == ';')
  match barePos with
  | some i => (String.mk (cs.take i), String.mk (cs.drop (i + 1)))
  | none => (path, "")

/-- `urllib.parse.urlparse` with a default scheme. -/
def urlparseD (url : String) (default_scheme : String) : UrlParts :=
  let sp := urlsplitD url default_scheme
  let pp := splitParams sp.path
  { sp with path := pp.1, params := pp.2 }

/-- `urllib.parse.urlunsplit` (with the `params` component appended to the
path as in `urlunparse`). -/
def urlunparseM (p : UrlParts) : String :=
  let url := if p.params ≠ "" then p.path ++ ";" ++ p.params else p.path
  let url :=
    if p.netloc ≠ "" ∨ (url ≠ "" ∧ url.data.take 2 = ['/', '/']) then
      "//" ++ p.netloc ++
        (if url ≠ "" ∧ ¬(url.data.take 1 = ['/']) then "/" ++ url else url)
    else url
  let url := if p.scheme ≠ "" then p.scheme ++ ":" ++ url else url
  let url := if p.query ≠ "" then url ++ "?" ++ p.query else url
  if p.fragment ≠ "" then url ++ "#" ++ p.fragment else url

/-- Schemes that support relative joining (`urllib.parse.uses_relative`). -/
def usesRelative : List String :=
  ["", "ftp", "http", "gopher", "nntp", "imap", "wais", "file", "https",
   "shttp", "mms", "prospero", "rtsp", "rtspu", "sftp", "svn", "svn+ssh",
   "ws", "wss"]

/-- Schemes that use a network location (`urllib.parse.uses_netloc`). -/
def usesNetloc : List String :=
  ["", "ftp", "http", "gopher", "nntp", "telnet", "imap", "wais", "file",
   "mms", "https", "shttp", "snews", "prospero", "rtsp", "rtspu", "rsync",
   "svn", "svn+ssh", "sftp", "nfs", "git", "git+ssh", "ws", "wss", "itms-services"]

/-- Remove empty strings from all but the first and last element
(`segments[1:-1] = filter(None, segments[1:-1])`). -/
def filterMiddle (l : List String) : List String :=
  match l with
  | [] => []
  | [x] => [x]
  | x :: rest =>
      x :: ((rest.dropLast.filter (fun s => s ≠ "")) ++ [rest.getLast!])

/-- The segment-resolution loop of `urljoin`: `..` pops, `.` is skipped. -/
def resolveSegments (segments : List String) : List String :=
  segments.foldl
    (fun acc seg =>
      if seg = ".." then acc.dropLast
      else if seg = "." then acc
      else acc ++ [seg])
    []

/-- `urllib.parse.urljoin`, following CPython's algorithm. -/
def urljoin (base url : String) : String :=
  if base = "" then url
  else if url = "" then base
  else
    let b := urlparseD base ""
    let u := urlparseD url b.scheme
    if u.scheme ≠ b.scheme ∨ ¬(usesRelative.contains u.scheme) then url
    else if usesNetloc.contains u.scheme ∧ u.netloc ≠ "" then
      urlunparseM u
    else
      let netloc := if usesNetloc.contains u.scheme then b.netloc else u.netloc
      if u.path = "" ∧ u.params = "" then
        let query := if u.query = "" then b.query else u.query
        urlunparseM ⟨u.scheme, netloc, b.path, b.params, query, u.fragment⟩
      else
        let base_parts :=
          let bp := pySplitSlash b.path
          if bp.getLast! ≠ "" then bp.dropLast else bp
        let segments :=
          if u.path.data.take 1 = ['/'] then pySplitSlash u.path
          else filterMiddle (base_parts ++ pySplitSlash u.path)
        let resolved := resolveSegments segments
        let resolved :=
          if segments.getLast! = "." ∨ segments.getLast! = ".." then
            resolved ++ [""]
          else resolved
        let joined := pyJoinSlash resolved
        urlunparseM ⟨u.scheme, netloc, (if joined = "" then "/" else joined),
          u.params, u.query, u.fragment⟩

/-- `_normalize_permalink` from `bot.py`. -/
def normalize_permalink (input : String) : String :=
  let clean_url :=
    urljoin "https://www.reddit.com/" (urljoin input (urlparseD input "").path)
  strReplace (strReplace (strReplace (strReplace clean_url
    "https://" "http://")
    "//scpwiki.com" "//scp-wiki.wikidot.com")
    "//www.scpwiki.com" "//scp-wiki.wikidot.com")
    "//www.scp-wiki.net" "//scp-wiki.wikidot.com"

/-! ## bot.py: per-item processing

PRAW objects are modelled as records of the fields `bot.py` reads; the
collaborators (`search`, `generate_response`, reply posting/editing,
moderator distinguish) are oracles returning `Except`, an `error` standing
for a raised exception.  The mutable effects (the two reply caches, the
Prometheus counter, posted replies and edits) are threaded through an
explicit state. -/

/-- A raised exception as seen by `bot.py`: `prawcore.exceptions.Forbidden`
is distinguished because the sticky block catches exactly it. -/
inductive RErr where
  | forbidden
  | exc (msg : String)
deriving DecidableEq, Repr

/-- A reply handle: its current body and permalink. -/
structure Reply where
  body : String
  permalink : String
deriving DecidableEq, Repr

/-- A Reddit submission, as the fields read by `_process_submission`.
`comments_stickied` lists the `stickied` flag of `submission.comments` in
order. -/
structure Submission where
  id : String
  title : String
  selftext : String
  url : String
  permalink : String
  subreddit_display_name : String
  created_utc : Int
  is_self : Bool
  comments_stickied : List Bool
deriving DecidableEq, Repr

/-- A Reddit comment, as the fields read by `_process_comment`.  `author`
is the author's name, `none` when deleted. -/
structure Comment where
  id : String
  body : String
  permalink : String
  context : String
  subreddit_display_name : String
  created_utc : Int
  author : Option String
  banned_by : Option String
deriving DecidableEq, Repr

/-- Python truthiness of an optional string (`None` and `""` are falsy). -/
def pyTruthyStr : Option String → Bool
  | some s => s ≠ ""
  | none => false

/-- Python dict assignment `d[k] = v` on an insertion-ordered association
list: overwrite in place, else append. -/
def assocSet {β : Type} (k : String) (v : β) :
    List (String × β) → List (String × β)
  | [] => [(k, v)]
  | (k', v') :: rest =>
      if k' == k then (k, v) :: rest else (k', v') :: assocSet k v rest

/-- Python dict lookup `d.get(k)`. -/
def assocGet {β : Type} (k : String) : List (String × β) → Option β
  | [] => none
  | (k', v') :: rest => if k' == k then some v' else assocGet k rest

/-- The collaborators of `_process_submission`. -/
structure SubmissionEnv where
  search : List SearchQuery → Except RErr (List SearchResult)
  generate_response : List SearchResult → Bool → Option String → Except RErr String
  reply : String → Except RErr Reply
  edit : Reply → String → Except RErr Unit
  distinguish : Except RErr Unit

/-- The collaborators of `_process_comment`. -/
structure CommentEnv where
  search : List SearchQuery → Except RErr (List SearchResult)
  generate_response : List SearchResult → Except RErr String
  reply : String → Except RErr Reply
  edit : Reply → String → Except RErr Unit

/-- The mutable state touched by `_process_submission`: the submission
reply cache, recorded counter increments, posted replies and performed
edits. -/
structure SubBotState where
  replied_text_submissions : List (String × (Submission × List SearchQuery × Reply))
  counters : List (String × String)
  posted : List Reply
  edits : List (Reply × String)
deriving DecidableEq, Repr

/-- The mutable state touched by `_process_comment`. -/
structure ComBotState where
  replied_comments : List (String × (Comment × List SearchQuery × Reply))
  counters : List (String × String)
  posted : List Reply
  edits : List (Reply × String)
deriving DecidableEq, Repr

/-- The query list built by `_process_submission`: URL query for a link
submission into a known netloc, then title queries, then selftext queries
for a text submission. -/
def submissionQueries (submission : Submission) (valid_netlocs : List String)
    (month day : Nat) : List SearchQuery :=
  let normalized_url := normalize_permalink submission.url
  let netloc := strLower (urlsplitD normalized_url "").netloc
  (if !submission.is_self ∧ valid_netlocs.contains netloc then
    [⟨SearchQueryType.URL, normalize_permalink submission.url, none⟩]
  else []) ++
  parse submission.title ParseContext.SUBMISSION_TITLE month day ++
  (if submission.is_self then
    parse submission.selftext ParseContext.SUBMISSION_SELFTEXT month day
  else [])

/-- The tail of the `try` block of `_process_submission` shared by the
create and edit paths: increment the counter, then attempt the best-effort
sticky; `Forbidden` is swallowed, any other exception falls to the outer
handler which returns `False` (state changes made so far are kept). -/
def submissionAfterReply (env : SubmissionEnv) (submission : Submission)
    (st : SubBotState) : Except RErr (Bool × SubBotState) :=
  let st := { st with
    counters := st.counters ++ [("submission", submission.subreddit_display_name)] }
  if submission.comments_stickied.length == 0 ∨
      !(submission.comments_stickied.headD false) then
    match env.distinguish with
    | .ok _ => .ok (true, st)
    | .error .forbidden => .ok (true, st)
    | .error (.exc _) => .ok (false, st)
  else .ok (true, st)

/-- `_process_submission` from `bot.py`.  The `Except.error` result models
an exception propagating out of the function (only `search` can cause
this: it is called before the `try` block). -/
def process_submission (env : SubmissionEnv) (submission : Submission)
    (start_time : Int) (valid_netlocs : List String)
    (previous_search_queries : Option (List SearchQuery))
    (previous_reply : Option Reply)
    (st : SubBotState) (month day : Nat) : Except RErr (Bool × SubBotState) :=
  if submission.created_utc ≤ start_time then .ok (false, st)
  else
    let normalized_url := normalize_permalink submission.url
    let search_queries := submissionQueries submission valid_netlocs month day
    if search_queries = [] ∨ some search_queries = previous_search_queries then
      .ok (false, st)
    else
      match env.search search_queries with
      | .error e => .error e
      | .ok results =>
        if results = [] then .ok (false, st)
        else
          match env.generate_response results true
              (if !submission.is_self then some normalized_url else none) with
          | .error _ => .ok (false, st)
          | .ok reply_text =>
            match previous_reply with
            | none =>
                match env.reply reply_text with
                | .error _ => .ok (false, st)
                | .ok reply =>
                    let st := { st with
                      posted := st.posted ++ [reply],
                      replied_text_submissions :=
                        assocSet submission.id (submission, search_queries, reply)
                          st.replied_text_submissions }
                    submissionAfterReply env submission st
            | some prev =>
                if prev.body ≠ reply_text then
                  match env.edit prev reply_text with
                  | .error _ => .ok (false, st)
                  | .ok _ =>
                      let st := { st with edits := st.edits ++ [(prev, reply_text)] }
                      submissionAfterReply env submission st
                else .ok (false, st)

/-- `_process_comment` from `bot.py`.  As with submissions, only the
resolver call can make an exception propagate: everything after it runs
inside the `try` block whose handler returns `False`. -/
def process_comment (env : CommentEnv) (comment : Comment)
    (comment_type : String) (start_time : Int) (bot_accounts : List String)
    (comment_subreddits : Option (List String))
    (previous_search_queries : Option (List SearchQuery))
    (previous_reply : Option Reply)
    (st : ComBotState) (month day : Nat) : Except RErr (Bool × ComBotState) :=
  if comment.created_utc ≤ start_time then .ok (false, st)
  else
    match comment.author with
    | none => .ok (false, st)
    | some author_name =>
      if bot_accounts.contains (strLower author_name) then .ok (false, st)
      else if comment_type == "comment" ∧ pyTruthyStr comment.banned_by then
        .ok (false, st)
      else if comment_type == "mention" ∧
          (match comment_subreddits with
           | some l => !l.isEmpty && l.contains (strLower comment.subreddit_display_name)
           | none => false) = true then
        .ok (false, st)
      else
        let search_queries := parse comment.body ParseContext.COMMENT_BODY month day
        if search_queries = [] ∨ some search_queries = previous_search_queries then
          .ok (false, st)
        else
          match env.search search_queries with
          | .error e => .error e
          | .ok results =>
            if results = [] then .ok (false, st)
            else
              match env.generate_response results with
              | .error _ => .ok (false, st)
              | .ok reply_text =>
                match previous_reply with
                | none =>
                    match env.reply reply_text with
                    | .error _ => .ok (false, st)
                    | .ok reply =>
                        let st := { st with
                          posted := st.posted ++ [reply],
                          replied_comments :=
                            assocSet comment.id (comment, search_queries, reply)
                              st.replied_comments }
                        .ok (true, { st with
                          counters := st.counters ++
                            [(comment_type, comment.subreddit_display_name)] })
                | some prev =>
                    if prev.body ≠ reply_text then
                      match env.edit prev reply_text with
                      | .error _ => .ok (false, st)
                      | .ok _ =>
                          let st := { st with edits := st.edits ++ [(prev, reply_text)] }
                          .ok (true, { st with
                            counters := st.counters ++
                              [(comment_type, comment.subreddit_display_name)] })
                    else .ok (false, st)

/-- The comment-batch loop in `start_bot`: items are processed in order,
return values ignored; an uncaught exception from an item aborts the whole
loop (and the process, since `start_bot` has no handler). -/
def process_comment_batch (env : CommentEnv) (comments : List Comment)
    (start_time : Int) (bot_accounts : List String)
    (comment_subreddits : Option (List String))
    (st : ComBotState) (month day : Nat) : Except RErr ComBotState :=
  match comments with
  | [] => .ok st
  | c :: rest =>
      match process_comment env c "comment" start_time bot_accounts
          comment_subreddits none none st month day with
      | .error e => .error e
      | .ok (_, st') =>
          process_comment_batch env rest start_time bot_accounts
            comment_subreddits st' month day

/-! ## Concrete fixtures for the claim evaluations -/

/-- An empty comment-side bot state. -/
def emptyComState : ComBotState := ⟨[], [], [], []⟩

/-- An empty submission-side bot state. -/
def emptySubState : SubBotState := ⟨[], [], [], []⟩

/-- A fresh, well-formed comment mentioning one article. -/
def fixComment : Comment :=
  { id := "c1", body := "[[SCP-173]]", permalink := "/r/SCP/comments/p/c1",
    context := "/r/SCP/comments/p/c1?context=3", subreddit_display_name := "SCP",
    created_utc := 100, author := some "alice", banned_by := none }

/-- One resolved page result. -/
def fixResult : SearchResult :=
  .page (some ⟨"http://scp-wiki.wikidot.com/scp-173"⟩) none

/-- A comment environment whose resolver raises. -/
def fixEnvSearchFail : CommentEnv :=
  { search := fun _ => .error (.exc "boom"),
    generate_response := fun _ => .ok "reply text",
    reply := fun t => .ok ⟨t, "/r/SCP/comments/p/r1"⟩,
    edit := fun _ _ => .ok () }

/-- A comment environment whose collaborators all succeed. -/
def fixEnvOk : CommentEnv :=
  { search := fun _ => .ok [fixResult],
    generate_response := fun _ => .ok "reply text",
    reply := fun t => .ok ⟨t, "/r/SCP/comments/p/r1"⟩,
    edit := fun _ _ => .ok () }

/-- A comment environment whose response formatter raises. -/
def fixEnvGenFail : CommentEnv :=
  { search := fun _ => .ok [fixResult],
    generate_response := fun _ => .error (.exc "format failed"),
    reply := fun t => .ok ⟨t, "/r/SCP/comments/p/r1"⟩,
    edit := fun _ _ => .ok () }

/-- A fresh text submission whose title mentions one article. -/
def fixSubmission : Submission :=
  { id := "s1", title := "About SCP-173", selftext := "",
    url := "http://example.com/x", permalink := "/r/SCP/comments/s1",
    subreddit_display_name := "SCP", created_utc := 100, is_self := true,
    comments_stickied := [] }

/-- A submission environment where everything succeeds except the
moderator distinguish call, which raises a non-Forbidden exception. -/
def fixSubEnvStickyFail : SubmissionEnv :=
  { search := fun _ => .ok [fixResult],
    generate_response := fun _ _ _ => .ok "reply text",
    reply := fun t => .ok ⟨t, "/r/SCP/comments/s1/r1"⟩,
    edit := fun _ _ => .ok (),
    distinguish := .error (.exc "server error") }

/-- A resolver oracle returning two page results whose URLs differ only in
letter case. -/
def fixCaseOracle : CromOracle :=
  { query_batch := fun _ =>
      [ { wikidotPage := some ⟨"http://scp-wiki.wikidot.com/SCP-173"⟩,
          matchingPages := none, searchPages := none, searchUsers := none },
        { wikidotPage := some ⟨"http://scp-wiki.wikidot.com/scp-173"⟩,
          matchingPages := none, searchPages := none, searchUsers := none } ],
    query := fun _ =>
      { wikidotPage := none, matchingPages := none, searchPages := none,
        searchUsers := none } }

/-! ## A declarative semantics for the regex engine

`RMatch cs r i j` holds when `r` can match the characters of `cs` from
position `i` (inclusive) to `j` (exclusive), ignoring matching priority.
`matchCore_sound` below shows every engine result is such a match; the
shape lemmas for the claims follow by inverting the derivation. -/

inductive RMatch (cs : List Char) : Regex → Nat → Nat → Prop where
  | eps (i : Nat) : RMatch cs .eps i i
  | cls {p : Char → Bool} {i : Nat} {c : Char}
      (hc : cs[i]? = some c) (hp : p c = true) : RMatch cs (.cls p) i (i + 1)
  | seq {a b : Regex} {i j k : Nat}
      (ha : RMatch cs a i j) (hb : RMatch cs b j k) : RMatch cs (.seq a b) i k
  | altL {a b : Regex} {i j : Nat} (h : RMatch cs a i j) : RMatch cs (.alt a b) i j
  | altR {a b : Regex} {i j : Nat} (h : RMatch cs b i j) : RMatch cs (.alt a b) i j
  | starNil (r : Regex) (i : Nat) : RMatch cs (.star r) i i
  | starCons {r : Regex} {i j k : Nat}
      (h1 : RMatch cs r i j) (h2 : RMatch cs (.star r) j k) :
      RMatch cs (.star r) i k
  | lazyNil (r : Regex) (i : Nat) : RMatch cs (.lazyStar r) i i
  | lazyCons {r : Regex} {i j k : Nat}
      (h1 : RMatch cs r i j) (h2 : RMatch cs (.lazyStar r) j k) :
      RMatch cs (.lazyStar r) i k
  | repNil (r : Regex) (hi : Nat) (i : Nat) : RMatch cs (.rep r 0 hi) i i
  | repConsM {r : Regex} {lo hi : Nat} {i j k : Nat}
      (h1 : RMatch cs r i j) (h2 : RMatch cs (.rep r lo hi) j k) :
      RMatch cs (.rep r (lo + 1) (hi + 1)) i k
  | repConsO {r : Regex} {hi : Nat} {i j k : Nat}
      (h1 : RMatch cs r i j) (h2 : RMatch cs (.rep r 0 hi) j k) :
      RMatch cs (.rep r 0 (hi + 1)) i k
  | optSome {r : Regex} {i j : Nat} (h : RMatch cs r i j) : RMatch cs (.opt r) i j
  | optNone (r : Regex) (i : Nat) : RMatch cs (.opt r) i i
  | grp {r : Regex} {i j : Nat} (h : RMatch cs r i j) : RMatch cs (.grp r) i j
  | nla {p : Char → Bool} (i : Nat)
      (h : ∀ c, cs[i]? = some c → p c = false) : RMatch cs (.nla p) i i
  | bos : RMatch cs .bos 0 0
  | eos : RMatch cs .eos cs.length cs.length

/-- Every capture group inside `r` has body `B` (trivially true when `r`
has no groups; every source pattern has exactly one group). -/
def GrpBody : Regex → Regex → Prop
  | .seq a b, B => GrpBody a B ∧ GrpBody b B
  | .alt a b, B => GrpBody a B ∧ GrpBody b B
  | .star r, B => GrpBody r B
  | .lazyStar r, B => GrpBody r B
  | .rep r _ _, B => GrpBody r B
  | .opt r, B => GrpBody r B
  | .grp r, B => r = B ∧ GrpBody r B
  | _, _ => True

/-- Invariant on a tracked group span: if it is set, it delimits a match of
the group's body. -/
def GrpState (cs : List Char) (B : Regex) (g : Option (Nat × Nat)) : Prop :=
  ∀ a b, g = some (a, b) → RMatch cs B a b

/-- `r` contains no capture group. -/
def noGrp : Regex → Bool
  | .seq a b => noGrp a && noGrp b
  | .alt a b => noGrp a && noGrp b
  | .star r => noGrp r
  | .lazyStar r => noGrp r
  | .rep r _ _ => noGrp r
  | .opt r => noGrp r
  | .grp _ => false
  | _ => true

/-! ## Engine soundness -/

theorem orElse_eq_some {α : Type} {x : Option α} {f : Unit → Option α} {r : α}
    (h : x.orElse f = some r) : x = some r ∨ (x = none ∧ f () = some r) := by
  cases x with
  | none => exact Or.inr ⟨rfl, h⟩
  | some a => exact Or.inl (by simpa [Option.orElse] using h)

/-- Soundness of the repetition loop, given soundness of the repeated
expression's matcher. -/
theorem matchRep_sound {cs : List Char} {B : Regex} {r : Regex}
    {mr : Nat → Option (Nat × Nat) →
      (Nat → Option (Nat × Nat) → Option MatchRes) → Option MatchRes}
    (hmr : ∀ i g k res, GrpState cs B g → mr i g k = some res →
      ∃ j g', RMatch cs r i j ∧ GrpState cs B g' ∧ k j g' = some res) :
    ∀ hi lo i g k res, GrpState cs B g →
      matchRep mr lo hi i g k = some res →
      ∃ j g', RMatch cs (.rep r lo hi) i j ∧ GrpState cs B g' ∧
        k j g' = some res := by
  intro hi
  induction hi with
  | zero =>
      intro lo i g k res hG hm
      cases lo with
      | zero => exact ⟨i, g, RMatch.repNil r 0 i, hG, by simpa [matchRep] using hm⟩
      | succ lo' => simp [matchRep] at hm
  | succ hi' ih =>
      intro lo i g k res hG hm
      cases lo with
      | zero =>
          rcases orElse_eq_some (by simpa only [matchRep] using hm) with h | ⟨_, h⟩
          · obtain ⟨j, g1, hmr1, hg1, hk1⟩ := hmr i g _ res hG h
            obtain ⟨j2, g2, hmrep, hg2, hk2⟩ := ih 0 j g1 k res hg1 hk1
            exact ⟨j2, g2, RMatch.repConsO hmr1 hmrep, hg2, hk2⟩
          · exact ⟨i, g, RMatch.repNil r (hi' + 1) i, hG, h⟩
      | succ lo' =>
          simp only [matchRep] at hm
          obtain ⟨j, g1, hmr1, hg1, hk1⟩ := hmr i g _ res hG hm
          obtain ⟨j2, g2, hmrep, hg2, hk2⟩ := ih lo' j g1 k res hg1 hk1
          exact ⟨j2, g2, RMatch.repConsM hmr1 hmrep, hg2, hk2⟩

/-- Soundness of one structural layer, given soundness of the iteration
callback. -/
theorem matchStep_sound {cs : List Char} {B : Regex}
    {iter : Regex → Nat → Option (Nat × Nat) →
      (Nat → Option (Nat × Nat) → Option MatchRes) → Option MatchRes}
    (hiter : ∀ r i g k res, GrpBody r B → GrpState cs B g →
      iter r i g k = some res →
      ∃ j g', RMatch cs r i j ∧ GrpState cs B g' ∧ k j g' = some res) :
    ∀ r i g k res, GrpBody r B → GrpState cs B g →
      matchStep cs iter r i g k = some res →
      ∃ j g', RMatch cs r i j ∧ GrpState cs B g' ∧ k j g' = some res := by
  intro r
  induction r with
  | eps =>
      intro i g k res _ hG hm
      exact ⟨i, g, RMatch.eps i, hG, by simpa [matchStep] using hm⟩
  | cls p =>
      intro i g k res _ hG hm
      simp only [matchStep] at hm
      cases hcs : cs[i]? with
      | none => simp [hcs] at hm
      | some c =>
          by_cases hp : p c = true
          · simp only [hcs, hp, if_true] at hm
            exact ⟨i + 1, g, RMatch.cls hcs hp, hG, hm⟩
          · simp [hcs, hp] at hm
  | seq a b iha ihb =>
      intro i g k res hB hG hm
      simp only [matchStep] at hm
      obtain ⟨j, g1, hma, hg1, hk1⟩ := iha i g _ res hB.1 hG hm
      obtain ⟨j2, g2, hmb, hg2, hk2⟩ := ihb j g1 k res hB.2 hg1 hk1
      exact ⟨j2, g2, RMatch.seq hma hmb, hg2, hk2⟩
  | alt a b iha ihb =>
      intro i g k res hB hG hm
      simp only [matchStep] at hm
      rcases orElse_eq_some hm with h | ⟨_, h⟩
      · obtain ⟨j, g1, hma, hg1, hk1⟩ := iha i g k res hB.1 hG h
        exact ⟨j, g1, RMatch.altL hma, hg1, hk1⟩
      · obtain ⟨j, g1, hmb, hg1, hk1⟩ := ihb i g k res hB.2 hG h
        exact ⟨j, g1, RMatch.altR hmb, hg1, hk1⟩
  | star r ihr =>
      intro i g k res hB hG hm
      simp only [matchStep] at hm
      rcases orElse_eq_some hm with h | ⟨_, h⟩
      · obtain ⟨j, g1, hmr, hg1, hk1⟩ := ihr i g _ res hB hG h
        by_cases hij : i < j
        · rw [if_pos hij] at hk1
          obtain ⟨j2, g2, hms, hg2, hk2⟩ := hiter (.star r) j g1 k res hB hg1 hk1
          exact ⟨j2, g2, RMatch.starCons hmr hms, hg2, hk2⟩
        · rw [if_neg hij] at hk1
          exact absurd hk1 (by simp)
      · exact ⟨i, g, RMatch.starNil r i, hG, h⟩
  | lazyStar r ihr =>
      intro i g k res hB hG hm
      simp only [matchStep] at hm
      rcases orElse_eq_some hm with h | ⟨_, h⟩
      · exact ⟨i, g, RMatch.lazyNil r i, hG, h⟩
      · obtain ⟨j, g1, hmr, hg1, hk1⟩ := ihr i g _ res hB hG h
        by_cases hij : i < j
        · rw [if_pos hij] at hk1
          obtain ⟨j2, g2, hms, hg2, hk2⟩ := hiter (.lazyStar r) j g1 k res hB hg1 hk1
          exact ⟨j2, g2, RMatch.lazyCons hmr hms, hg2, hk2⟩
        · rw [if_neg hij] at hk1
          exact absurd hk1 (by simp)
  | rep r lo hi ihr =>
      intro i g k res hB hG hm
      simp only [matchStep] at hm
      exact matchRep_sound (fun i' g' k' res' hG' hm' => ihr i' g' k' res' hB hG' hm')
        hi lo i g k res hG hm
  | opt r ihr =>
      intro i g k res hB hG hm
      simp only [matchStep] at hm
      rcases orElse_eq_some hm with h | ⟨_, h⟩
      · obtain ⟨j, g1, hmr, hg1, hk1⟩ := ihr i g k res hB hG h
        exact ⟨j, g1, RMatch.optSome hmr, hg1, hk1⟩
      · exact ⟨i, g, RMatch.optNone r i, hG, h⟩
  | grp r ihr =>
      intro i g k res hB hG hm
      simp only [matchStep] at hm
      obtain ⟨j, g1, hmr, hg1, hk1⟩ := ihr i g _ res hB.2 hG hm
      refine ⟨j, some (i, j), RMatch.grp hmr, ?_, hk1⟩
      intro a b hab
      have hij : i = a ∧ j = b := by simpa using hab
      obtain ⟨ha, hb⟩ := hij
      subst ha
      subst hb
      exact hB.1 ▸ hmr
  | nla p =>
      intro i g k res _ hG hm
      simp only [matchStep] at hm
      cases hcs : cs[i]? with
      | none =>
          simp only [hcs] at hm
          exact ⟨i, g, RMatch.nla i (fun c h => by rw [hcs] at h; cases h), hG, hm⟩
      | some c =>
          by_cases hp : p c = true
          · simp [hcs, hp] at hm
          · simp only [hcs, if_neg hp] at hm
            refine ⟨i, g, RMatch.nla i (fun c' h => ?_), hG, hm⟩
            rw [hcs] at h
            injection h with h'
            subst h'
            simpa using hp
  | bos =>
      intro i g k res _ hG hm
      simp only [matchStep] at hm
      by_cases hi : i = 0
      · subst hi
        simp only [beq_self_eq_true, if_true] at hm
        exact ⟨0, g, RMatch.bos, hG, hm⟩
      · simp [hi] at hm
  | eos =>
      intro i g k res _ hG hm
      simp only [matchStep] at hm
      by_cases hi : i = cs.length
      · subst hi
        simp only [beq_self_eq_true, if_true] at hm
        exact ⟨cs.length, g, RMatch.eos, hG, hm⟩
      · simp [hi] at hm

/-- Soundness of the backtracking engine: a successful run of `matchCore`
exhibits a declarative match of `r`, maintains the group invariant, and
hands its result to the continuation. -/
theorem matchCore_sound {cs : List Char} {B : Regex} :
    ∀ (fuel : Nat) (r : Regex) (i : Nat) (g : Option (Nat × Nat))
      (k : Nat → Option (Nat × Nat) → Option MatchRes) (res : MatchRes),
      GrpBody r B → GrpState cs B g →
      matchCore cs fuel r i g k = some res →
      ∃ j g', RMatch cs r i j ∧ GrpState cs B g' ∧ k j g' = some res := by
  intro fuel
  induction fuel with
  | zero => intro r i g k res _ _ hm; simp [matchCore] at hm
  | succ fuel ih =>
      intro r i g k res hB hG hm
      exact matchStep_sound (fun r' i' g' k' res' hB' hG' hm' =>
        ih r' i' g' k' res' hB' hG' hm') r i g k res hB hG
        (by simpa only [matchCore] using hm)


/-! ## Derived facts about the engine -/

theorem GrpBody_of_noGrp {B : Regex} : ∀ {r : Regex}, noGrp r = true → GrpBody r B := by
  intro r
  induction r with
  | seq a b iha ihb =>
      intro h
      simp only [noGrp, Bool.and_eq_true] at h
      exact ⟨iha h.1, ihb h.2⟩
  | alt a b iha ihb =>
      intro h
      simp only [noGrp, Bool.and_eq_true] at h
      exact ⟨iha h.1, ihb h.2⟩
  | star r ihr => intro h; exact ihr (by simpa [noGrp] using h)
  | lazyStar r ihr => intro h; exact ihr (by simpa [noGrp] using h)
  | rep r lo hi ihr => intro h; exact ihr (by simpa [noGrp] using h)
  | opt r ihr => intro h; exact ihr (by simpa [noGrp] using h)
  | grp r ihr => intro h; simp [noGrp] at h
  | eps => intro _; trivial
  | cls p => intro _; trivial
  | nla p => intro _; trivial
  | bos => intro _; trivial
  | eos => intro _; trivial

theorem matchCore_succ (cs : List Char) (fuel : Nat) (r : Regex) (i : Nat)
    (g : Option (Nat × Nat)) (k : Nat → Option (Nat × Nat) → Option MatchRes) :
    matchCore cs (fuel + 1) r i g k = matchStep cs (matchCore cs fuel) r i g k := rfl

theorem matchStep_seq (cs : List Char)
    (iter : Regex → Nat → Option (Nat × Nat) →
      (Nat → Option (Nat × Nat) → Option MatchRes) → Option MatchRes)
    (a b : Regex) (i : Nat) (g : Option (Nat × Nat))
    (k : Nat → Option (Nat × Nat) → Option MatchRes) :
    matchStep cs iter (.seq a b) i g k =
      matchStep cs iter a i g (fun j g' => matchStep cs iter b j g' k) := rfl

theorem matchStep_grp (cs : List Char)
    (iter : Regex → Nat → Option (Nat × Nat) →
      (Nat → Option (Nat × Nat) → Option MatchRes) → Option MatchRes)
    (r : Regex) (i : Nat) (g : Option (Nat × Nat))
    (k : Nat → Option (Nat × Nat) → Option MatchRes) :
    matchStep cs iter (.grp r) i g k =
      matchStep cs iter r i g (fun j _ => k j (some (i, j))) := rfl

theorem matchStep_nla (cs : List Char)
    (iter : Regex → Nat → Option (Nat × Nat) →
      (Nat → Option (Nat × Nat) → Option MatchRes) → Option MatchRes)
    (p : Char → Bool) (i : Nat) (g : Option (Nat × Nat))
    (k : Nat → Option (Nat × Nat) → Option MatchRes) :
    matchStep cs iter (.nla p) i g k =
      (match cs[i]? with
       | some c => if p c then none else k i g
       | none => k i g) := rfl

theorem RMatch_le {cs : List Char} {r : Regex} {i j : Nat}
    (h : RMatch cs r i j) : i ≤ j := by
  induction h <;> omega

theorem RMatch_cls_inv {cs : List Char} {p : Char → Bool} {i j : Nat}
    (h : RMatch cs (.cls p) i j) :
    j = i + 1 ∧ ∃ c, cs[i]? = some c ∧ p c = true := by
  cases h with
  | cls hc hp => exact ⟨rfl, _, hc, hp⟩

theorem RMatch_seq_inv {cs : List Char} {a b : Regex} {i j : Nat}
    (h : RMatch cs (.seq a b) i j) :
    ∃ m, RMatch cs a i m ∧ RMatch cs b m j := by
  cases h with
  | seq ha hb => exact ⟨_, ha, hb⟩

theorem RMatch_eps_inv {cs : List Char} {i j : Nat}
    (h : RMatch cs .eps i j) : j = i := by
  cases h; rfl

theorem RMatch_opt_inv {cs : List Char} {r : Regex} {i j : Nat}
    (h : RMatch cs (.opt r) i j) : j = i ∨ RMatch cs r i j := by
  cases h with
  | optSome h => exact Or.inr h
  | optNone => exact Or.inl rfl

theorem RMatch_star_inv {cs : List Char} {r : Regex} {i j : Nat}
    (h : RMatch cs (.star r) i j) :
    j = i ∨ ∃ m, RMatch cs r i m ∧ RMatch cs (.star r) m j := by
  cases h with
  | starNil => exact Or.inl rfl
  | starCons h1 h2 => exact Or.inr ⟨_, h1, h2⟩

/-- Inversion for a counted repetition of a character class: exactly `n`
consecutive matching characters, with `lo ≤ n ≤ hi`. -/
theorem RMatch_rep_cls {cs : List Char} {p : Char → Bool} :
    ∀ {lo hi i j : Nat}, RMatch cs (.rep (.cls p) lo hi) i j →
      ∃ n, lo ≤ n ∧ n ≤ hi ∧ j = i + n ∧
        ∀ m, m < n → ∃ c, cs[i + m]? = some c ∧ p c = true := by
  intro lo hi i j h
  generalize hR : Regex.rep (.cls p) lo hi = R at h
  induction h generalizing lo hi with
  | repNil r hi' i' =>
      injection hR with hr hlo hhi
      exact ⟨0, by omega, by omega, by omega, fun m hm => absurd hm (by omega)⟩
  | repConsM h1 h2 _ ih2 =>
      injection hR with hr hlo hhi
      subst hr
      obtain ⟨hj1, c, hc, hpc⟩ := RMatch_cls_inv h1
      subst hj1
      obtain ⟨n', hlo', hhi', hj', hchar⟩ := ih2 rfl
      refine ⟨n' + 1, by omega, by omega, by omega, ?_⟩
      intro m hm
      cases m with
      | zero => exact ⟨c, by simpa using hc, hpc⟩
      | succ m' =>
          obtain ⟨c', hc', hpc'⟩ := hchar m' (by omega)
          exact ⟨c', by simpa [Nat.add_assoc, Nat.add_comm, Nat.add_left_comm] using hc', hpc'⟩
  | repConsO h1 h2 _ ih2 =>
      injection hR with hr hlo hhi
      subst hr
      obtain ⟨hj1, c, hc, hpc⟩ := RMatch_cls_inv h1
      subst hj1
      obtain ⟨n', hlo', hhi', hj', hchar⟩ := ih2 rfl
      refine ⟨n' + 1, by omega, by omega, by omega, ?_⟩
      intro m hm
      cases m with
      | zero => exact ⟨c, by simpa using hc, hpc⟩
      | succ m' =>
          obtain ⟨c', hc', hpc'⟩ := hchar m' (by omega)
          exact ⟨c', by simpa [Nat.add_assoc, Nat.add_comm, Nat.add_left_comm] using hc', hpc'⟩
  | eps _ => simp at hR
  | cls _ _ => simp at hR
  | seq _ _ _ _ => simp at hR
  | altL _ _ => simp at hR
  | altR _ _ => simp at hR
  | starNil _ _ => simp at hR
  | starCons _ _ _ _ => simp at hR
  | lazyNil _ _ => simp at hR
  | lazyCons _ _ _ _ => simp at hR
  | optSome _ _ => simp at hR
  | optNone _ _ => simp at hR
  | grp _ _ => simp at hR
  | nla _ _ => simp at hR
  | bos => simp at hR
  | eos => simp at hR

/-- Inversion for a case-insensitive literal built by `Regex.strCI`:
the match has the literal's length and each position holds the lower- or
upper-case form of the corresponding literal character. -/
theorem RMatch_ciStr {cs : List Char} :
    ∀ (l : List Char) {i j : Nat},
      RMatch cs (l.foldr (fun c r => Regex.seq (Regex.chrCI c) r) Regex.eps) i j →
      j = i + l.length ∧
        ∀ m, m < l.length → ∃ x, cs[i + m]? = some x ∧
          (x = (l.getD m ' ').toLower ∨ x = (l.getD m ' ').toUpper) := by
  intro l
  induction l with
  | nil =>
      intro i j h
      have := RMatch_eps_inv h
      exact ⟨by simpa using this, fun m hm => absurd hm (by simp)⟩
  | cons c rest ih =>
      intro i j h
      obtain ⟨m1, hc, hrest⟩ := RMatch_seq_inv h
      obtain ⟨hm1, x, hx, hpx⟩ := RMatch_cls_inv hc
      subst hm1
      obtain ⟨hlen, hchars⟩ := ih hrest
      have hdisj : x = c.toLower ∨ x = c.toUpper := by
        simpa [Regex.chrCI, Bool.or_eq_true, beq_iff_eq] using hpx
      refine ⟨by simp [List.length_cons]; omega, ?_⟩
      intro m hm
      cases m with
      | zero => exact ⟨x, by simpa using hx, by simpa using hdisj⟩
      | succ m' =>
          obtain ⟨x', hx', hd'⟩ := hchars m' (by simpa using hm)
          refine ⟨x', by simpa [Nat.add_assoc, Nat.add_comm, Nat.add_left_comm] using hx', ?_⟩
          simpa using hd'

theorem mem_findIterAux {cs : List Char} {r : Regex} :
    ∀ {fuel i0 : Nat} {m : FoundMatch}, m ∈ findIterAux cs r fuel i0 →
      matchAt cs r m.1 = some m.2 := by
  intro fuel
  induction fuel with
  | zero => intro i0 m h; simp [findIterAux] at h
  | succ fuel ih =>
      intro i0 m h
      simp only [findIterAux] at h
      by_cases hgt : i0 > cs.length
      · simp [hgt] at h
      · simp only [if_neg hgt] at h
        cases hma : matchAt cs r i0 with
        | some eg =>
            obtain ⟨e, g⟩ := eg
            rw [hma] at h
            simp only [List.mem_cons] at h
            rcases h with h | h
            · subst h; exact hma
            · by_cases hle : e ≤ i0
              · rw [if_pos hle] at h; exact ih h
              · rw [if_neg hle] at h; exact ih h
        | none =>
            rw [hma] at h
            by_cases heq : i0 == cs.length
            · simp [heq] at h
            · rw [if_neg (by simpa using heq)] at h
              exact ih h

theorem mem_findMatches {cs : Regex} {s : String} {m : FoundMatch}
    (h : m ∈ findMatches cs s) : matchAt s.data cs m.1 = some m.2 :=
  mem_findIterAux h

theorem mem_findGroup1 {r : Regex} {s : String} {v : String}
    (h : v ∈ findGroup1 r s) :
    ∃ st e g, matchAt s.data r st = some (e, g) ∧
      v = (match g with | some (a, b) => sliceStr s a b | none => "") := by
  simp only [findGroup1, List.mem_map] at h
  obtain ⟨m, hm, hv⟩ := h
  exact ⟨m.1, m.2.1, m.2.2, mem_findMatches hm, hv.symm⟩

/-! ## Pattern-level soundness -/

/-- A successful match of a pattern of the form `(<body>)(?!\w)` (the shape
of `_BARE_MATCH_REGEX`) captures exactly the whole match, which is a
declarative match of the body not followed by a `p` character. -/
theorem matchAt_grpNla {cs : List Char} {B : Regex} {p : Char → Bool} {i e : Nat}
    {g : Option (Nat × Nat)} (hng : noGrp B = true)
    (h : matchAt cs (.seq (.grp B) (.nla p)) i = some (e, g)) :
    g = some (i, e) ∧ RMatch cs B i e ∧ (∀ c, cs[e]? = some c → p c = false) := by
  unfold matchAt at h
  rw [show cs.length + 2 = (cs.length + 1) + 1 from rfl, matchCore_succ,
    matchStep_seq, matchStep_grp] at h
  obtain ⟨j, g', hBm, _, hk⟩ :=
    matchStep_sound (B := B)
      (fun r' i' g' k' res' hB' hG' hm' =>
        matchCore_sound (cs.length + 1) r' i' g' k' res' hB' hG' hm')
      B i none _ _ (GrpBody_of_noGrp hng) (fun a b hab => by simp at hab) h
  simp only [matchStep_nla] at hk
  cases hcj : cs[j]? with
  | some c =>
      rw [hcj] at hk
      by_cases hpc : p c = true
      · simp [hpc] at hk
      · simp only [hpc, if_false, Bool.false_eq_true] at hk
        have hje : j = e ∧ some (i, j) = g := by simpa using hk
        obtain ⟨hje1, hje2⟩ := hje
        subst hje1
        refine ⟨hje2.symm, hBm, ?_⟩
        intro c' hc'
        rw [hcj] at hc'
        injection hc' with hc''
        subst hc''
        simpa using hpc
  | none =>
      rw [hcj] at hk
      have hje : j = e ∧ some (i, j) = g := by simpa using hk
      obtain ⟨hje1, hje2⟩ := hje
      subst hje1
      exact ⟨hje2.symm, hBm, fun c' hc' => by rw [hcj] at hc'; cases hc'⟩

/-- A successful match of an international pattern
`SCP[- ]?(<core>)(?!\w)` captures a span that is a declarative match of the
core, not followed by a word character. -/
theorem matchAt_intlShape {cs : List Char} {core : Regex} {i e : Nat}
    {g : Option (Nat × Nat)} (hng : noGrp core = true)
    (h : matchAt cs (intlShape core) i = some (e, g)) :
    ∃ a, g = some (a, e) ∧ RMatch cs core a e ∧
      (∀ c, cs[e]? = some c → isWordChar c = false) := by
  unfold matchAt intlShape at h
  rw [show cs.length + 2 = (cs.length + 1) + 1 from rfl, matchCore_succ,
    matchStep_seq] at h
  have hsound := fun r' i' g' k' res' hB' hG' hm' =>
    @matchCore_sound cs core (cs.length + 1) r' i' g' k' res' hB' hG' hm'
  obtain ⟨j1, g1, _, hG1, hk1⟩ :=
    matchStep_sound (B := core) hsound _ i none _ _ (GrpBody_of_noGrp (by decide))
      (fun a b hab => by simp at hab) h
  simp only [matchStep_seq] at hk1
  obtain ⟨j2, g2, _, hG2, hk2⟩ :=
    matchStep_sound (B := core) hsound _ j1 g1 _ _ (GrpBody_of_noGrp (by decide)) hG1 hk1
  simp only [matchStep_seq, matchStep_grp] at hk2
  obtain ⟨j3, g3, hcore, _, hk3⟩ :=
    matchStep_sound (B := core) hsound core j2 g2 _ _ (GrpBody_of_noGrp hng) hG2 hk2
  simp only [matchStep_nla] at hk3
  cases hcj : cs[j3]? with
  | some c =>
      rw [hcj] at hk3
      by_cases hpc : isWordChar c = true
      · simp [hpc] at hk3
      · simp only [hpc, if_false, Bool.false_eq_true] at hk3
        have hje : j3 = e ∧ some (j2, j3) = g := by simpa using hk3
        obtain ⟨hje1, hje2⟩ := hje
        subst hje1
        refine ⟨j2, hje2.symm, hcore, ?_⟩
        intro c' hc'
        rw [hcj] at hc'
        injection hc' with hc''
        subst hc''
        simpa using hpc
  | none =>
      rw [hcj] at hk3
      have hje : j3 = e ∧ some (j2, j3) = g := by simpa using hk3
      obtain ⟨hje1, hje2⟩ := hje
      subst hje1
      exact ⟨j2, hje2.symm, hcore, fun c' hc' => by rw [hcj] at hc'; cases hc'⟩

/-! ## Slice lemmas -/

theorem sliceStr_getElem? {s : String} {a b m : Nat} (h1 : m < b - a) :
    (sliceStr s a b).data[m]? = s.data[a + m]? := by
  simp only [sliceStr]
  rw [List.getElem?_take_of_lt h1, List.getElem?_drop]

theorem sliceStr_getElem?_none {s : String} {a b m : Nat} (h : b - a ≤ m) :
    (sliceStr s a b).data[m]? = none := by
  simp only [sliceStr]
  refine List.getElem?_eq_none_iff.mpr ?_
  calc ((s.data.drop a).take (b - a)).length ≤ b - a := by
        simpa using List.length_take_le (b - a) (s.data.drop a)
    _ ≤ m := h

/-! ## Shape of bare-stage values -/

/-- Every query emitted by the bare primary-site stage has a value of the
form: three characters, then a hyphen-or-space separator (at index 3), then
`n` digits with `3 ≤ n ≤ 4`, after which the value either ends or continues
with a hyphen (the start of a `-[A-Z0-9]+` suffix block). -/
theorem bareStage_shape {t : String} {q : SearchQuery} (hq : q ∈ bareStage t) :
    ∃ n, 3 ≤ n ∧ n ≤ 4 ∧
      (∃ c, q.value.data[3]? = some c ∧ (c = '-' ∨ c = ' ')) ∧
      (∀ m, m < n → ∃ c, q.value.data[4 + m]? = some c ∧ c.isDigit = true) ∧
      (q.value.data[4 + n]? = none ∨ q.value.data[4 + n]? = some '-') := by
  simp only [bareStage, List.mem_map] at hq
  obtain ⟨v, hv, hqeq⟩ := hq
  obtain ⟨st, e, g, hma, hveq⟩ := mem_findGroup1 hv
  have hbare : matchAt t.data (.seq (.grp bareBody) (.nla isWordChar)) st
      = some (e, g) := hma
  obtain ⟨hg, hB, hnw⟩ := matchAt_grpNla (by decide) hbare
  rw [hg] at hveq
  have hqv : q.value = sliceStr t st e := by rw [← hqeq]; simpa using hveq
  simp only [bareBody] at hB
  obtain ⟨p1, hSCP, hrest1⟩ := RMatch_seq_inv hB
  simp only [Regex.strCI] at hSCP
  obtain ⟨hp1, _⟩ := RMatch_ciStr _ hSCP
  have hp1' : p1 = st + 3 := by simpa using hp1
  obtain ⟨p2, hsep, hrest2⟩ := RMatch_seq_inv hrest1
  simp only [sepCls] at hsep
  obtain ⟨hp2, csep, hcsep, hpsep⟩ := RMatch_cls_inv hsep
  have hcsep' : csep = '-' ∨ csep = ' ' := by
    simpa [Bool.or_eq_true, beq_iff_eq] using hpsep
  obtain ⟨p3, hnum, hstar⟩ := RMatch_seq_inv hrest2
  simp only [numPart, digitCls] at hnum
  obtain ⟨n, hn3, hn4, hp3, hdig⟩ := RMatch_rep_cls hnum
  have hp3e : p3 ≤ e := RMatch_le hstar
  refine ⟨n, hn3, hn4, ?_, ?_, ?_⟩
  · -- separator at value index 3
    refine ⟨csep, ?_, hcsep'⟩
    rw [hqv, sliceStr_getElem? (by omega)]
    simpa [hp1'] using hcsep
  · -- digits at value indices 4..4+n-1
    intro m hm
    obtain ⟨c, hc, hcd⟩ := hdig m hm
    refine ⟨c, ?_, hcd⟩
    rw [hqv, sliceStr_getElem? (by omega)]
    have : st + (4 + m) = p2 + m := by omega
    rw [this]
    exact hc
  · -- after the digits: end of value or a hyphen
    rcases RMatch_star_inv hstar with he | ⟨m', hblk, hrest⟩
    · left
      rw [hqv]
      exact sliceStr_getElem?_none (by omega)
    · right
      simp only [sfxBlk] at hblk
      obtain ⟨mh, hchr, hblkrest⟩ := RMatch_seq_inv hblk
      simp only [Regex.chr] at hchr
      obtain ⟨hmh, ch, hch, hchp⟩ := RMatch_cls_inv hchr
      have hch' : ch = '-' := by simpa [beq_iff_eq] using hchp
      have hm'e : m' ≤ e := RMatch_le hrest
      have hble : p3 + 1 ≤ m' := by
        have := RMatch_le hblkrest
        omega
      rw [hqv, sliceStr_getElem? (by omega)]
      have : st + (4 + n) = p3 := by omega
      rw [this, hch]
      rw [hch']

/-! ## Stage structure of parse -/

/-- `parse` is the concatenation of the four stages, in order. -/
theorem parse_stages (text : String) (context : ParseContext) (month day : Nat) :
    parse text context month day =
      (let remaining0 :=
        if context ≠ ParseContext.SUBMISSION_TITLE then sanitize_markdown text
        else text
      let remaining2 :=
        falsePositives.foldl (fun t re => subAll re t) (subAll modernMatchRegex remaining0)
      let intl := intlStage internationalRegexes remaining2
      modernStage remaining0 ++ intl.1 ++ bareStage intl.2 ++
        (if context = ParseContext.COMMENT_BODY ∧ day = 1 ∧ month = 4 ∧
            searchB scp2Match intl.2 = true
         then [⟨SearchQueryType.BARE, "2", some primarySite⟩] else [])) := by
  unfold parse
  simp only [List.append_assoc]
  split <;> split <;> simp_all [List.append_assoc]

theorem modernStage_mem {t : String} {q : SearchQuery} (hq : q ∈ modernStage t) :
    ∃ inner, q = ⟨SearchQueryType.FREEFORM, inner, some (findIntlSite inner)⟩ := by
  simp only [modernStage, List.mem_filterMap] at hq
  obtain ⟨inner, _, hsome⟩ := hq
  by_cases h : hasNonWS inner = true
  · rw [if_pos h] at hsome
    injection hsome with hsome'
    exact ⟨inner, hsome'.symm⟩
  · rw [if_neg h] at hsome
    cases hsome

theorem bareStage_mem {t : String} {q : SearchQuery} (hq : q ∈ bareStage t) :
    q.type = SearchQueryType.FREEFORM ∧ q.site_url = some primarySite ∧
      q.value ∈ findGroup1 bareMatchRegex t := by
  simp only [bareStage, List.mem_map] at hq
  obtain ⟨v, hv, hqeq⟩ := hq
  subst hqeq
  exact ⟨rfl, rfl, hv⟩

theorem intlStage_mem :
    ∀ {regs : List (Regex × String)} {t : String} {q : SearchQuery},
      q ∈ (intlStage regs t).1 →
      ∃ p t', p ∈ regs ∧ q.type = SearchQueryType.BARE ∧
        q.site_url = some p.2 ∧ q.value ∈ findGroup1 p.1 t' := by
  intro regs
  induction regs with
  | nil => intro t q hq; simp [intlStage] at hq
  | cons p rest ih =>
      intro t q hq
      obtain ⟨re, site⟩ := p
      simp only [intlStage] at hq
      by_cases hms : (findGroup1 re t).isEmpty = true
      · rw [if_pos hms] at hq
        obtain ⟨p', t', hp', hty, hsu, hval⟩ := ih hq
        exact ⟨p', t', List.mem_cons_of_mem _ hp', hty, hsu, hval⟩
      · rw [if_neg hms] at hq
        simp only [List.mem_append, List.mem_map] at hq
        rcases hq with ⟨v, hv, hqeq⟩ | hq
        · subst hqeq
          exact ⟨(re, site), t, List.mem_cons_self _ _, rfl, rfl, hv⟩
        · obtain ⟨p', t', hp', hty, hsu, hval⟩ := ih hq
          exact ⟨p', t', List.mem_cons_of_mem _ hp', hty, hsu, hval⟩

/-- The site chosen for an explicit-bracket query is the primary site or one
of the international table's sites. -/
theorem findIntlSite_mem (inner : String) :
    findIntlSite inner = primarySite ∨
      findIntlSite inner ∈ internationalRegexes.map Prod.snd := by
  unfold findIntlSite
  cases hf : internationalRegexes.find? (fun p => fullmatchB p.1 inner) with
  | none => exact Or.inl rfl
  | some p =>
      right
      exact List.mem_map_of_mem Prod.snd (List.mem_of_find?_eq_some hf)

/-- Every query produced by `parse` comes from one of the four stages. -/
theorem parse_mem_cases {text : String} {context : ParseContext}
    {month day : Nat} {q : SearchQuery} (hq : q ∈ parse text context month day) :
    (∃ t0, q ∈ modernStage t0) ∨
    (∃ t2, q ∈ (intlStage internationalRegexes t2).1) ∨
    (∃ t3, q ∈ bareStage t3) ∨
    q = ⟨SearchQueryType.BARE, "2", some primarySite⟩ := by
  rw [parse_stages] at hq
  simp only [List.mem_append] at hq
  rcases hq with ((h | h) | h) | h
  · exact Or.inl ⟨_, h⟩
  · exact Or.inr (Or.inl ⟨_, h⟩)
  · exact Or.inr (Or.inr (Or.inl ⟨_, h⟩))
  · rcases Decidable.em (context = ParseContext.COMMENT_BODY ∧ day = 1 ∧ month = 4 ∧
        searchB scp2Match
          (intlStage internationalRegexes
            (falsePositives.foldl (fun t re => subAll re t)
              (subAll modernMatchRegex
                (if context ≠ ParseContext.SUBMISSION_TITLE then sanitize_markdown text
                 else text)))).2 = true) with hc | hc
    · rw [if_pos hc] at h
      simp only [List.mem_singleton] at h
      exact Or.inr (Or.inr (Or.inr h))
    · rw [if_neg hc] at h
      simp at h

/-! ## Shape of Italian-variant values -/

theorem sliceStr_length_le (s : String) (a b : Nat) :
    (sliceStr s a b).data.length ≤ b - a := by
  simp only [sliceStr]
  simpa using List.length_take_le (b - a) (s.data.drop a)

/-- Every character inside a span matched by the Italian core
`\d{3,4}-?IT` is a digit, a hyphen, or a letter of `IT` — never a space. -/
theorem coreIT_shape {cs : List Char} {a e : Nat} (h : RMatch cs coreIT a e) :
    ∀ m, a ≤ m → m < e → ∃ c, cs[m]? = some c ∧ c ≠ ' ' := by
  simp only [coreIT] at h
  obtain ⟨p1, hnum, hrest⟩ := RMatch_seq_inv h
  simp only [numPart, digitCls] at hnum
  obtain ⟨n, hn3, hn4, hp1, hdig⟩ := RMatch_rep_cls hnum
  obtain ⟨p2, hopt, hIT⟩ := RMatch_seq_inv hrest
  simp only [Regex.strCI] at hIT
  obtain ⟨he, hITchars⟩ := RMatch_ciStr _ hIT
  have hITlen : ("IT".data).length = 2 := rfl
  rw [hITlen] at he
  intro m ham hme
  by_cases hm1 : m < p1
  · obtain ⟨c, hc, hcd⟩ := hdig (m - a) (by omega)
    have : a + (m - a) = m := by omega
    rw [this] at hc
    refine ⟨c, hc, ?_⟩
    intro hsp
    subst hsp
    simp at hcd
  · rcases RMatch_opt_inv hopt with hp2 | hhyp
    · -- no hyphen: m ∈ [p2, e) with p2 = p1
      subst hp2
      have hm0 : m - p2 < 2 := by omega
      obtain ⟨x, hx, hdx⟩ := hITchars (m - p2) (by rw [hITlen]; omega)
      have : p2 + (m - p2) = m := by omega
      rw [this] at hx
      refine ⟨x, hx, ?_⟩
      have h2 : m - p2 = 0 ∨ m - p2 = 1 := by omega
      rcases h2 with h2 | h2 <;> rw [h2] at hdx <;>
        rcases hdx with hdx | hdx <;> subst hdx <;> decide
    · -- hyphen present
      simp only [Regex.chr] at hhyp
      obtain ⟨hp2, ch, hch, hchp⟩ := RMatch_cls_inv hhyp
      have hch' : ch = '-' := by simpa [beq_iff_eq] using hchp
      by_cases hmh : m = p1
      · subst hmh
        exact ⟨ch, hch, by rw [hch']; decide⟩
      · have hm0 : m - p2 < 2 := by omega
        obtain ⟨x, hx, hdx⟩ := hITchars (m - p2) (by rw [hITlen]; omega)
        have : p2 + (m - p2) = m := by omega
        rw [this] at hx
        refine ⟨x, hx, ?_⟩
        have h2 : m - p2 = 0 ∨ m - p2 = 1 := by omega
        rcases h2 with h2 | h2 <;> rw [h2] at hdx <;>
          rcases hdx with hdx | hdx <;> subst hdx <;> decide

/-! ## Claim theorems: the mention extractor -/

/-- C4 counterexample: the claim asserts the separator between the catalog
prefix and the number is optional, so `extract("SCP173", CommentText)`
would have to emit a Freeform query for that span; the code emits
nothing, because `_BARE_MATCH_REGEX` requires `[- ]` (a hyphen or a space)
between the prefix and the digits. -/
theorem C4_counterexample :
    parse "SCP173" ParseContext.COMMENT_BODY 3 15 = [] := by decide

/-- C4 (amended): in the bare primary-site stage the separator between the
literal catalog prefix and the 3-4 digit number is REQUIRED, not optional:
every emitted value has a hyphen or a space at index 3, texts with the
separator match (`SCP-173`, `SCP 173`), and a prefix glued directly to the
number (`SCP173`) emits nothing. -/
theorem C4_separator_required :
    (∀ (t : String) (q : SearchQuery), q ∈ bareStage t →
        ∃ c, q.value.data[3]? = some c ∧ (c = '-' ∨ c = ' ')) ∧
    parse "SCP-173" ParseContext.COMMENT_BODY 3 15 =
      [⟨SearchQueryType.FREEFORM, "SCP-173", some primarySite⟩] ∧
    parse "SCP 173" ParseContext.COMMENT_BODY 3 15 =
      [⟨SearchQueryType.FREEFORM, "SCP 173", some primarySite⟩] ∧
    parse "SCP173" ParseContext.COMMENT_BODY 3 15 = [] := by
  refine ⟨?_, by decide, by decide, by decide⟩
  intro t q hq
  obtain ⟨n, _, _, hsep, _, _⟩ := bareStage_shape hq
  exact hsep

theorem C4_separator_required_witness :
    ∃ c, (("SCP-173" : String).data)[3]? = some c ∧ (c = '-' ∨ c = ' ') :=
  C4_separator_required.1 "SCP-173"
    ⟨SearchQueryType.FREEFORM, "SCP-173", some primarySite⟩ (by decide)

/-- C5: a catalog number of 5 or more digits never matches the bare
primary-site stage.  Every value the stage emits has exactly `n` digits
with `3 ≤ n ≤ 4` after the separator, followed by the end of the value or
a hyphen (never a fifth digit); and the spec's example
`extract("SCP-10000 is deep", CommentText)` is the empty sequence. -/
theorem C5_five_digits_rejected :
    (∀ (t : String) (q : SearchQuery), q ∈ bareStage t →
        ∃ n, 3 ≤ n ∧ n ≤ 4 ∧
          (∀ m, m < n → ∃ c, q.value.data[4 + m]? = some c ∧ c.isDigit = true) ∧
          (q.value.data[4 + n]? = none ∨ q.value.data[4 + n]? = some '-')) ∧
    parse "SCP-10000 is deep" ParseContext.COMMENT_BODY 3 15 = [] := by
  refine ⟨?_, by decide⟩
  intro t q hq
  obtain ⟨n, h3, h4, _, hdig, hnext⟩ := bareStage_shape hq
  exact ⟨n, h3, h4, hdig, hnext⟩

theorem C5_five_digits_rejected_witness :
    ∃ n, 3 ≤ n ∧ n ≤ 4 ∧
      (∀ m, m < n → ∃ c, (("SCP-173" : String).data)[4 + m]? = some c ∧
        c.isDigit = true) ∧
      ((("SCP-173" : String).data)[4 + n]? = none ∨
        (("SCP-173" : String).data)[4 + n]? = some '-') :=
  C5_five_digits_rejected.1 "SCP-173"
    ⟨SearchQueryType.FREEFORM, "SCP-173", some primarySite⟩ (by decide)

/-- C6 counterexample: the claim asserts an Italian-variant query is
emitted ONLY when the matched span contains a literal hyphen between the
number and the IT marker; but the pattern is `\d{3,4}-?IT` with an
OPTIONAL hyphen, so `SCP-173IT` emits an Italian-variant query whose span
`173IT` contains no hyphen. -/
theorem C6_counterexample :
    parse "SCP-173IT" ParseContext.COMMENT_BODY 3 15 =
      [⟨SearchQueryType.BARE, "173IT",
        some "http://fondazionescp.wikidot.com"⟩] := by decide

/-- C6 (amended): the Italian pattern allows the hyphen between the number
and the IT marker to be absent, but never allows a space there (unlike the
other international patterns): every Italian-variant Bare query's value is
entirely space-free, spans with a hyphen or with no separator both match,
and a span with a space before IT never yields an Italian-variant query. -/
theorem C6_it_hyphen_optional_no_space :
    (∀ (text : String) (context : ParseContext) (month day : Nat)
        (q : SearchQuery), q ∈ parse text context month day →
        q.type = SearchQueryType.BARE →
        q.site_url = some "http://fondazionescp.wikidot.com" →
        ∀ c ∈ q.value.data, c ≠ ' ') ∧
    parse "SCP-173-IT" ParseContext.COMMENT_BODY 3 15 =
      [⟨SearchQueryType.BARE, "173-IT", some "http://fondazionescp.wikidot.com"⟩] ∧
    parse "SCP-173IT" ParseContext.COMMENT_BODY 3 15 =
      [⟨SearchQueryType.BARE, "173IT", some "http://fondazionescp.wikidot.com"⟩] ∧
    parse "SCP-173 IT" ParseContext.COMMENT_BODY 3 15 =
      [⟨SearchQueryType.FREEFORM, "SCP-173", some primarySite⟩] := by
  refine ⟨?_, by decide, by decide, by decide⟩
  intro text context month day q hq hty hsite c hc
  rcases parse_mem_cases hq with ⟨t0, hm⟩ | ⟨t2, hm⟩ | ⟨t3, hm⟩ | hm
  · obtain ⟨inner, rfl⟩ := modernStage_mem hm
    simp at hty
  · obtain ⟨p, t', hp, _, hsu, hval⟩ := intlStage_mem hm
    have hp2 : p.2 = "http://fondazionescp.wikidot.com" := by
      rw [hsite] at hsu
      injection hsu with h
      exact h.symm
    have hpIT : p.1 = intlShape coreIT := by
      simp only [internationalRegexes, List.mem_cons, List.not_mem_nil,
        or_false] at hp
      rcases hp with rfl | rfl | rfl | rfl | rfl | rfl | rfl | rfl | rfl | rfl |
        rfl | rfl | rfl | rfl | rfl | rfl | rfl | rfl | rfl <;>
        first
          | rfl
          | exact absurd hp2 (by decide)
    rw [hpIT] at hval
    obtain ⟨st, e, g, hma, hveq⟩ := mem_findGroup1 hval
    obtain ⟨a, hg, hcore, _⟩ := matchAt_intlShape (by decide) hma
    rw [hg] at hveq
    have hqv : q.value = sliceStr t' a e := by simpa using hveq
    rw [hqv] at hc
    obtain ⟨m, hm'⟩ := List.mem_iff_getElem?.mp hc
    have hmlen := (List.getElem?_eq_some.mp hm').1
    have hmlt : m < e - a := lt_of_lt_of_le hmlen (sliceStr_length_le t' a e)
    rw [sliceStr_getElem? hmlt] at hm'
    obtain ⟨c', hc', hcs'⟩ := coreIT_shape hcore (a + m) (by omega) (by omega)
    rw [hc'] at hm'
    injection hm' with hm''
    rw [← hm'']
    exact hcs'
  · obtain ⟨hty', _, _⟩ := bareStage_mem hm
    rw [hty'] at hty
    cases hty
  · rw [hm] at hsite
    exact absurd (by injection hsite) (by decide)

theorem C6_it_hyphen_optional_no_space_witness :
    ∀ c ∈ (("173IT" : String).data), c ≠ ' ' :=
  C6_it_hyphen_optional_no_space.1 "SCP-173IT" ParseContext.COMMENT_BODY 3 15
    ⟨SearchQueryType.BARE, "173IT", some "http://fondazionescp.wikidot.com"⟩
    (by decide) rfl rfl

/-- C7: the sequence returned by `parse` is the concatenation of the
explicit-bracket stage, the international-variant stage, the bare
primary-site stage and the seasonal-rule query, in that order. -/
theorem C7_stage_order (text : String) (context : ParseContext)
    (month day : Nat) :
    parse text context month day =
      (let remaining0 :=
        if context ≠ ParseContext.SUBMISSION_TITLE then sanitize_markdown text
        else text
      let remaining2 :=
        falsePositives.foldl (fun t re => subAll re t)
          (subAll modernMatchRegex remaining0)
      let intl := intlStage internationalRegexes remaining2
      modernStage remaining0 ++ intl.1 ++ bareStage intl.2 ++
        (if context = ParseContext.COMMENT_BODY ∧ day = 1 ∧ month = 4 ∧
            searchB scp2Match intl.2 = true
         then [⟨SearchQueryType.BARE, "2", some primarySite⟩] else [])) :=
  parse_stages text context month day

/-- C9 counterexample: the claim asserts every query produced anywhere in
the system carries a non-null site; but the submission-link query built by
`_process_submission` for a link submission into a monitored netloc is
constructed with `site_url=None`. -/
theorem C9_counterexample :
    (submissionQueries
      { id := "abc123", title := "Look at this", selftext := "",
        url := "http://scp-wiki.wikidot.com/scp-173",
        permalink := "/r/SCP/comments/abc123",
        subreddit_display_name := "SCP", created_utc := 100,
        is_self := false, comments_stickied := [] }
      ["scp-wiki.wikidot.com"] 3 15).map SearchQuery.site_url = [none] := by
  decide

/-- C9 (amended): every query the mention extractor `parse` produces
carries a non-null site — the primary site or one of the international
table's sites — but the submission-link URL query in `_process_submission`
is constructed with an absent (`None`) site. -/
theorem C9_parse_sites_nonnull :
    (∀ (text : String) (context : ParseContext) (month day : Nat)
        (q : SearchQuery), q ∈ parse text context month day →
        ∃ s, q.site_url = some s ∧
          (s = primarySite ∨ s ∈ internationalRegexes.map Prod.snd)) ∧
    (submissionQueries
      { id := "abc123", title := "Look at this", selftext := "",
        url := "http://scp-wiki.wikidot.com/scp-173",
        permalink := "/r/SCP/comments/abc123",
        subreddit_display_name := "SCP", created_utc := 100,
        is_self := false, comments_stickied := [] }
      ["scp-wiki.wikidot.com"] 3 15).map SearchQuery.site_url = [none] := by
  refine ⟨?_, by decide⟩
  intro text context month day q hq
  rcases parse_mem_cases hq with ⟨t0, hm⟩ | ⟨t2, hm⟩ | ⟨t3, hm⟩ | rfl
  · obtain ⟨inner, rfl⟩ := modernStage_mem hm
    exact ⟨findIntlSite inner, rfl, findIntlSite_mem inner⟩
  · obtain ⟨p, t', hp, _, hsu, _⟩ := intlStage_mem hm
    exact ⟨p.2, hsu, Or.inr (List.mem_map_of_mem Prod.snd hp)⟩
  · obtain ⟨_, hsu, _⟩ := bareStage_mem hm
    exact ⟨primarySite, hsu, Or.inl rfl⟩
  · exact ⟨primarySite, rfl, Or.inl rfl⟩

theorem C9_parse_sites_nonnull_witness :
    ∃ s, (⟨SearchQueryType.FREEFORM, "SCP-173", some primarySite⟩ :
        SearchQuery).site_url = some s ∧
      (s = primarySite ∨ s ∈ internationalRegexes.map Prod.snd) :=
  C9_parse_sites_nonnull.1 "[[SCP-173]]" ParseContext.COMMENT_BODY 3 15
    ⟨SearchQueryType.FREEFORM, "SCP-173", some primarySite⟩ (by decide)

/-! ## Reductions of the per-item processing functions -/

/-- When the per-comment guards pass and the resolver raises, the
exception propagates out of `_process_comment`. -/
theorem process_comment_search_error
    {env : CommentEnv} {comment : Comment} {start_time : Int}
    {bots : List String} {subs : Option (List String)} {st : ComBotState}
    {month day : Nat} {name : String} {e : RErr}
    (h0 : ¬comment.created_utc ≤ start_time)
    (h1 : comment.author = some name)
    (h2 : bots.contains (strLower name) = false)
    (h3 : comment.banned_by = none)
    (h4 : parse comment.body ParseContext.COMMENT_BODY month day ≠ [])
    (h5 : env.search (parse comment.body ParseContext.COMMENT_BODY month day) =
      .error e) :
    process_comment env comment "comment" start_time bots subs none none
      st month day = .error e := by
  unfold process_comment
  rw [if_neg h0]
  simp only [h1, h2, h3, h4, h5, pyTruthyStr, Bool.false_eq_true, if_false,
    beq_self_eq_true, true_and, and_false, false_and, and_true, or_false,
    false_or, Option.some_ne_none, not_false_eq_true, ite_false, ite_true,
    reduceCtorEq, if_neg, ne_eq]
  split
  · rename_i hcontra
    exact absurd hcontra.1 (by decide)
  · rfl

/-- When the per-comment guards pass, the resolver succeeds with results,
and the response formatter raises, `_process_comment` catches the exception
and reports no action with the state unchanged. -/
theorem process_comment_generate_error
    {env : CommentEnv} {comment : Comment} {start_time : Int}
    {bots : List String} {subs : Option (List String)} {st : ComBotState}
    {month day : Nat} {name : String} {results : List SearchResult} {e : RErr}
    (h0 : ¬comment.created_utc ≤ start_time)
    (h1 : comment.author = some name)
    (h2 : bots.contains (strLower name) = false)
    (h3 : comment.banned_by = none)
    (h4 : parse comment.body ParseContext.COMMENT_BODY month day ≠ [])
    (h5 : env.search (parse comment.body ParseContext.COMMENT_BODY month day) =
      .ok results)
    (h6 : results ≠ [])
    (h7 : env.generate_response results = .error e) :
    process_comment env comment "comment" start_time bots subs none none
      st month day = .ok (false, st) := by
  unfold process_comment
  rw [if_neg h0]
  simp only [h1, h2, h3, h4, h5, h7, pyTruthyStr, Bool.false_eq_true, if_false,
    beq_self_eq_true, true_and, and_false, false_and, and_true, or_false,
    false_or, Option.some_ne_none, not_false_eq_true, ite_false, ite_true,
    reduceCtorEq, if_neg, ne_eq]
  split
  · rename_i hcontra
    exact absurd hcontra.1 (by decide)
  · rfl

/-- When the per-comment guards pass and every collaborator succeeds on a
first-contact run, `_process_comment` posts a reply, registers the cache
entry, increments the counter and returns `True`. -/
theorem process_comment_create
    {env : CommentEnv} {comment : Comment} {start_time : Int}
    {bots : List String} {subs : Option (List String)} {st : ComBotState}
    {month day : Nat} {name : String} {results : List SearchResult}
    {text : String} {r : Reply}
    (h0 : ¬comment.created_utc ≤ start_time)
    (h1 : comment.author = some name)
    (h2 : bots.contains (strLower name) = false)
    (h3 : comment.banned_by = none)
    (h4 : parse comment.body ParseContext.COMMENT_BODY month day ≠ [])
    (h5 : env.search (parse comment.body ParseContext.COMMENT_BODY month day) =
      .ok results)
    (h6 : results ≠ [])
    (h7 : env.generate_response results = .ok text)
    (h8 : env.reply text = .ok r) :
    process_comment env comment "comment" start_time bots subs none none
      st month day =
      .ok (true, { st with
        replied_comments := assocSet comment.id
          (comment, parse comment.body ParseContext.COMMENT_BODY month day, r)
          st.replied_comments,
        counters := st.counters ++ [("comment", comment.subreddit_display_name)],
        posted := st.posted ++ [r] }) := by
  unfold process_comment
  rw [if_neg h0]
  simp only [h1, h2, h3, h4, h5, h7, h8, pyTruthyStr, Bool.false_eq_true, if_false,
    beq_self_eq_true, true_and, and_false, false_and, and_true, or_false,
    false_or, Option.some_ne_none, not_false_eq_true, ite_false, ite_true,
    reduceCtorEq, if_neg, ne_eq]
  split
  · rename_i hcontra
    exact absurd hcontra.1 (by decide)
  · rfl

/-! ## Claim theorems: client and bot -/

/-- C3: `query_batch` retries exactly once after a refreshed credential
(second conjunct: an expiry followed by a success returns the data), but
when the retry ALSO fails with an expired credential the exception is
caught, the loop falls through, and the function silently returns `None`
(`Except.ok none`) instead of propagating the failure — contradicting the
claim and the declared `-> list[dict]` return type. -/
theorem C3_double_expiry_returns_none :
    query_batch (α := Unit) (fun _ => PostOutcome.tokenExpired) =
        Except.ok none ∧
    query_batch (α := Unit) (fun i =>
        if i = 0 then PostOutcome.tokenExpired
        else PostOutcome.ok false (BodyVal.list [⟨(), none⟩])) =
      Except.ok (some [()]) := ⟨rfl, rfl⟩

/-- C1 counterexample: with every guard passing, an exception raised by the
resolver (`search`) is NOT caught by `_process_comment`: the call sits
before the `try` block, so the exception propagates to the caller. -/
theorem C1_counterexample :
    process_comment fixEnvSearchFail fixComment "comment" 0 [] none none none
      emptyComState 3 15 = Except.error (RErr.exc "boom") := rfl

/-- C1 (amended): an exception from the reference resolver propagates out
of the item's processing (aborting the batch loop), because `search` is
called outside the `try` block; exceptions raised after resolution, while
generating the reply, are caught, treated as no action (state unchanged),
and processing of subsequent items in the batch continues. -/
theorem C1_resolver_errors_propagate :
    (∀ (env : CommentEnv) (comment : Comment) (start_time : Int)
        (bots : List String) (subs : Option (List String)) (st : ComBotState)
        (month day : Nat) (name : String) (e : RErr),
      ¬comment.created_utc ≤ start_time →
      comment.author = some name →
      bots.contains (strLower name) = false →
      comment.banned_by = none →
      parse comment.body ParseContext.COMMENT_BODY month day ≠ [] →
      env.search (parse comment.body ParseContext.COMMENT_BODY month day) =
        .error e →
      process_comment env comment "comment" start_time bots subs none none
        st month day = .error e) ∧
    (∀ (env : CommentEnv) (comment : Comment) (start_time : Int)
        (bots : List String) (subs : Option (List String)) (st : ComBotState)
        (month day : Nat) (name : String) (results : List SearchResult)
        (e : RErr),
      ¬comment.created_utc ≤ start_time →
      comment.author = some name →
      bots.contains (strLower name) = false →
      comment.banned_by = none →
      parse comment.body ParseContext.COMMENT_BODY month day ≠ [] →
      env.search (parse comment.body ParseContext.COMMENT_BODY month day) =
        .ok results →
      results ≠ [] →
      env.generate_response results = .error e →
      process_comment env comment "comment" start_time bots subs none none
        st month day = .ok (false, st)) ∧
    (∀ (env : CommentEnv) (comment : Comment) (rest : List Comment)
        (start_time : Int) (bots : List String) (subs : Option (List String))
        (st : ComBotState) (month day : Nat) (name : String)
        (results : List SearchResult) (e : RErr),
      ¬comment.created_utc ≤ start_time →
      comment.author = some name →
      bots.contains (strLower name) = false →
      comment.banned_by = none →
      parse comment.body ParseContext.COMMENT_BODY month day ≠ [] →
      env.search (parse comment.body ParseContext.COMMENT_BODY month day) =
        .ok results →
      results ≠ [] →
      env.generate_response results = .error e →
      process_comment_batch env (comment :: rest) start_time bots subs
        st month day =
        process_comment_batch env rest start_time bots subs st month day) := by
  refine ⟨?_, ?_, ?_⟩
  · intro env comment start_time bots subs st month day name e
      h0 h1 h2 h3 h4 h5
    exact process_comment_search_error h0 h1 h2 h3 h4 h5
  · intro env comment start_time bots subs st month day name results e
      h0 h1 h2 h3 h4 h5 h6 h7
    exact process_comment_generate_error h0 h1 h2 h3 h4 h5 h6 h7
  · intro env comment rest start_time bots subs st month day name results e
      h0 h1 h2 h3 h4 h5 h6 h7
    simp only [process_comment_batch]
    rw [process_comment_generate_error h0 h1 h2 h3 h4 h5 h6 h7]

theorem C1_resolver_errors_propagate_witness :
    process_comment fixEnvGenFail fixComment "comment" 0 [] none none none
      emptyComState 3 15 = Except.ok (false, emptyComState) :=
  C1_resolver_errors_propagate.2.1 fixEnvGenFail fixComment 0 [] none
    emptyComState 3 15 "alice" [fixResult] (RErr.exc "format failed")
    (by decide) rfl (by decide) rfl (by decide) rfl (by decide) rfl

/-- C2 counterexample: running the first-contact path twice back to back on
the same comment (no previous reply or query set either time) posts TWICE:
the first-contact path never consults the reply cache, so the second run is
not a no-op and the total number of posted replies is 2, not at most 1. -/
theorem C2_counterexample :
    ((process_comment fixEnvOk fixComment "comment" 0 [] none none none
        emptyComState 3 15).bind fun p1 =>
      (process_comment fixEnvOk fixComment "comment" 0 [] none none none
        p1.2 3 15).map fun p2 => (p1.1, p2.1, p2.2.posted.length)) =
      Except.ok (true, true, 2) := rfl

/-- C2 (amended): two back-to-back first-contact runs of the same item BOTH
post — each run returns `True` and appends one reply, leaving two posted
replies in total; nothing in the processing path consults the cache, so
single posting relies on the stream not yielding an item twice. -/
theorem C2_double_first_contact_posts_twice :
    ∀ (env : CommentEnv) (comment : Comment) (start_time : Int)
      (bots : List String) (subs : Option (List String)) (st : ComBotState)
      (month day : Nat) (name : String) (results : List SearchResult)
      (text : String) (r : Reply),
      ¬comment.created_utc ≤ start_time →
      comment.author = some name →
      bots.contains (strLower name) = false →
      comment.banned_by = none →
      parse comment.body ParseContext.COMMENT_BODY month day ≠ [] →
      env.search (parse comment.body ParseContext.COMMENT_BODY month day) =
        .ok results →
      results ≠ [] →
      env.generate_response results = .ok text →
      env.reply text = .ok r →
      ((process_comment env comment "comment" start_time bots subs none none
          st month day).bind fun p1 =>
        (process_comment env comment "comment" start_time bots subs none none
          p1.2 month day).map fun p2 => (p1.1, p2.1, p2.2.posted)) =
        Except.ok (true, true, st.posted ++ [r, r]) := by
  intro env comment start_time bots subs st month day name results text r
    h0 h1 h2 h3 h4 h5 h6 h7 h8
  rw [process_comment_create h0 h1 h2 h3 h4 h5 h6 h7 h8]
  show ((process_comment env comment "comment" start_time bots subs none none
      _ month day).map fun p2 => (true, p2.1, p2.2.posted)) = _
  rw [process_comment_create h0 h1 h2 h3 h4 h5 h6 h7 h8]
  show Except.ok (true, true, (st.posted ++ [r]) ++ [r]) = _
  simp

theorem C2_double_first_contact_posts_twice_witness :
    ((process_comment fixEnvOk fixComment "comment" 0 [] none none none
        emptyComState 3 15).bind fun p1 =>
      (process_comment fixEnvOk fixComment "comment" 0 [] none none none
        p1.2 3 15).map fun p2 => (p1.1, p2.1, p2.2.posted)) =
      Except.ok (true, true, emptyComState.posted ++
        [⟨"reply text", "/r/SCP/comments/p/r1"⟩,
         ⟨"reply text", "/r/SCP/comments/p/r1"⟩]) :=
  C2_double_first_contact_posts_twice fixEnvOk fixComment 0 [] none
    emptyComState 3 15 "alice" [fixResult] "reply text"
    ⟨"reply text", "/r/SCP/comments/p/r1"⟩
    (by decide) rfl (by decide) rfl (by decide) rfl (by decide) rfl rfl

/-- C10: when a first-contact submission reply succeeds and the best-effort
sticky/distinguish step then raises an exception other than Forbidden, the
outer handler catches it and `_process_submission` returns `False`, yet the
state shows the reply still posted, the cache entry still registered and
the response counter still incremented — the create action is never rolled
back. -/
theorem C10_create_survives_sticky_failure :
    ∀ (env : SubmissionEnv) (submission : Submission) (start_time : Int)
      (valid_netlocs : List String) (st : SubBotState) (month day : Nat)
      (results : List SearchResult) (text : String) (r : Reply) (msg : String),
      ¬submission.created_utc ≤ start_time →
      submissionQueries submission valid_netlocs month day ≠ [] →
      env.search (submissionQueries submission valid_netlocs month day) =
        .ok results →
      results ≠ [] →
      env.generate_response results true
        (if !submission.is_self then some (normalize_permalink submission.url)
         else none) = .ok text →
      env.reply text = .ok r →
      submission.comments_stickied = [] →
      env.distinguish = .error (.exc msg) →
      process_submission env submission start_time valid_netlocs none none
        st month day =
        .ok (false, { st with
          posted := st.posted ++ [r],
          replied_text_submissions := assocSet submission.id
            (submission, submissionQueries submission valid_netlocs month day, r)
            st.replied_text_submissions,
          counters := st.counters ++
            [("submission", submission.subreddit_display_name)] }) := by
  intro env submission start_time valid_netlocs st month day results text r msg
    h0 h1 h2 h3 h4 h5 h6 h7
  simp only [process_submission]
  rw [if_neg h0, if_neg (by simp [h1])]
  simp only [h2]
  rw [if_neg h3]
  simp only [h4, h5]
  simp only [submissionAfterReply, h6, h7]
  simp

theorem C10_create_survives_sticky_failure_witness :
    process_submission fixSubEnvStickyFail fixSubmission 0 [] none none
      emptySubState 3 15 =
      .ok (false, { emptySubState with
        posted := emptySubState.posted ++
          [⟨"reply text", "/r/SCP/comments/s1/r1"⟩],
        replied_text_submissions := assocSet "s1"
          (fixSubmission, submissionQueries fixSubmission [] 3 15,
            ⟨"reply text", "/r/SCP/comments/s1/r1"⟩)
          emptySubState.replied_text_submissions,
        counters := emptySubState.counters ++ [("submission", "SCP")] }) :=
  C10_create_survives_sticky_failure fixSubEnvStickyFail fixSubmission 0 []
    emptySubState 3 15 [fixResult] "reply text"
    ⟨"reply text", "/r/SCP/comments/s1/r1"⟩ "server error"
    (by decide) (by decide) rfl (by decide) rfl rfl rfl rfl

/-! ## Chunking and deduplication lemmas (search.py) -/

theorem chunksOfAux_nil {α : Type} (n fuel : Nat) :
    chunksOfAux n fuel ([] : List α) = [] := by
  cases fuel <;> rfl

theorem chunksOfAux_join {α : Type} {n : Nat} (hn : 0 < n) :
    ∀ (fuel : Nat) (l : List α), l.length ≤ fuel →
      (chunksOfAux n fuel l).flatten = l := by
  intro fuel
  induction fuel with
  | zero =>
      intro l hl
      cases l with
      | nil => rfl
      | cons x xs => simp at hl
  | succ fuel ih =>
      intro l hl
      cases l with
      | nil => rfl
      | cons x xs =>
          obtain ⟨m, rfl⟩ : ∃ m, n = m + 1 := ⟨n - 1, by omega⟩
          simp only [chunksOfAux, List.flatten]
          rw [ih (xs.drop (m + 1 - 1)) (by simp [List.length_drop] at hl ⊢; omega)]
          simp only [Nat.add_sub_cancel, List.take_succ_cons]
          rw [List.cons_append, List.take_append_drop]

theorem chunksOfAux_length_le {α : Type} (n : Nat) :
    ∀ (fuel : Nat) (l : List α) (c : List α),
      c ∈ chunksOfAux n fuel l → c.length ≤ n := by
  intro fuel
  induction fuel with
  | zero =>
      intro l c hc
      cases l with
      | nil => simp [chunksOfAux] at hc
      | cons x xs => simp [chunksOfAux] at hc
  | succ fuel ih =>
      intro l c hc
      cases l with
      | nil => simp [chunksOfAux] at hc
      | cons x xs =>
          simp only [chunksOfAux, List.mem_cons] at hc
          rcases hc with rfl | hc
          · simpa using List.length_take_le n (x :: xs)
          · exact ih _ _ hc

theorem chunksOfAux_full {α : Type} {n : Nat} (hn : 0 < n) :
    ∀ (fuel : Nat) (l : List α) (i : Nat), l.length ≤ fuel →
      i + 1 < (chunksOfAux n fuel l).length →
      ((chunksOfAux n fuel l).getD i []).length = n := by
  intro fuel
  induction fuel with
  | zero =>
      intro l i hl hi
      cases l with
      | nil => simp [chunksOfAux] at hi
      | cons x xs => simp at hl
  | succ fuel ih =>
      intro l i hl hi
      cases l with
      | nil => simp [chunksOfAux] at hi
      | cons x xs =>
          simp only [chunksOfAux] at hi ⊢
          cases i with
          | zero =>
              simp only [List.getD_cons_zero]
              have hrest : chunksOfAux n fuel (xs.drop (n - 1)) ≠ [] := by
                intro hempty
                rw [hempty] at hi
                simp at hi
              have hdrop : xs.drop (n - 1) ≠ [] := by
                intro hd
                rw [hd, chunksOfAux_nil] at hrest
                exact hrest rfl
              have hxs : n - 1 < xs.length := by
                by_contra hcon
                exact hdrop (List.drop_eq_nil_of_le (by omega))
              simp only [List.length_take]
              simp only [List.length_cons]
              omega
          | succ i' =>
              simp only [List.getD_cons_succ]
              exact ih (xs.drop (n - 1)) i'
                (by simp [List.length_drop] at hl ⊢; omega)
                (by simpa using hi)

theorem uniqByAux_sublist {α κ : Type} [DecidableEq κ] (mapper : α → κ) :
    ∀ (l : List α) (seen : List κ), (uniqByAux mapper l seen).Sublist l := by
  intro l
  induction l with
  | nil => intro seen; simp [uniqByAux]
  | cons x xs ih =>
      intro seen
      simp only [uniqByAux]
      by_cases h : mapper x ∈ seen
      · rw [if_pos h]
        exact (ih seen).cons x
      · rw [if_neg h]
        exact (ih (mapper x :: seen)).cons₂ x

theorem uniqByAux_keys {α κ : Type} [DecidableEq κ] (mapper : α → κ) :
    ∀ (l : List α) (seen : List κ),
      ((uniqByAux mapper l seen).map mapper).Nodup ∧
      ∀ k ∈ (uniqByAux mapper l seen).map mapper, k ∉ seen := by
  intro l
  induction l with
  | nil => intro seen; simp [uniqByAux]
  | cons x xs ih =>
      intro seen
      simp only [uniqByAux]
      by_cases h : mapper x ∈ seen
      · rw [if_pos h]
        exact ih seen
      · rw [if_neg h]
        obtain ⟨hnd, hsn⟩ := ih (mapper x :: seen)
        simp only [List.map_cons, List.nodup_cons]
        refine ⟨⟨?_, hnd⟩, ?_⟩
        · intro hmem
          exact hsn _ hmem (List.mem_cons_self _ _)
        · intro k hk
          simp only [List.mem_cons] at hk
          rcases hk with rfl | hk
          · exact h
          · intro hks
            exact hsn k hk (List.mem_cons_of_mem _ hks)

theorem uniqByAux_complete {α κ : Type} [DecidableEq κ] (mapper : α → κ) :
    ∀ (l : List α) (seen : List κ) (x : α), x ∈ l →
      mapper x ∈ seen ∨ mapper x ∈ (uniqByAux mapper l seen).map mapper := by
  intro l
  induction l with
  | nil => intro seen x hx; simp at hx
  | cons y ys ih =>
      intro seen x hx
      simp only [uniqByAux]
      simp only [List.mem_cons] at hx
      by_cases h : mapper y ∈ seen
      · rw [if_pos h]
        rcases hx with rfl | hx
        · exact Or.inl h
        · exact ih seen x hx
      · rw [if_neg h]
        rcases hx with rfl | hx
        · exact Or.inr (by simp)
        · rcases ih (mapper y :: seen) x hx with hs | ho
          · simp only [List.mem_cons] at hs
            rcases hs with heq | hs
            · exact Or.inr (by simp [heq])
            · exact Or.inl hs
          · exact Or.inr (by simp [ho])

/-! ## Claim theorems: the resolver wrapper -/

/-- C8 counterexample: the claim says results are deduplicated by identity
compared case-insensitively; but `_uniq_by`'s key mapper applies no case
folding, so two page results whose URLs differ only in letter case are BOTH
kept. -/
theorem C8_counterexample :
    search fixCaseOracle
      [⟨SearchQueryType.FREEFORM, "SCP-173", some primarySite⟩,
       ⟨SearchQueryType.FREEFORM, "scp-173", some primarySite⟩] =
      [.page (some ⟨"http://scp-wiki.wikidot.com/SCP-173"⟩) none,
       .page (some ⟨"http://scp-wiki.wikidot.com/scp-173"⟩) none] := rfl

/-- C8 (amended): `search` issues its queries in batches of fixed size 25
(the chunks concatenate back to the query list, every chunk has at most 25
queries, and every chunk but the last has exactly 25), and deduplicates the
shaped results by identity — page URL or username — compared
CASE-SENSITIVELY (exact string equality), preserving first-seen order (the
output is a sublist of the shaped results, its keys are pairwise distinct,
and every shaped result's key appears in it). -/
theorem C8_batch25_and_case_sensitive_dedup :
    (∀ (qs : List SearchQuery),
      (chunksOf 25 qs).flatten = qs ∧
      (∀ c ∈ chunksOf 25 qs, c.length ≤ 25) ∧
      (∀ i, i + 1 < (chunksOf 25 qs).length →
        ((chunksOf 25 qs).getD i []).length = 25)) ∧
    (∀ (oracle : CromOracle) (qs : List SearchQuery),
      search oracle qs = uniqBy resultKey (shapedResults oracle qs) ∧
      (search oracle qs).Sublist (shapedResults oracle qs) ∧
      ((search oracle qs).map resultKey).Nodup ∧
      ∀ r ∈ shapedResults oracle qs,
        resultKey r ∈ (search oracle qs).map resultKey) := by
  constructor
  · intro qs
    refine ⟨chunksOfAux_join (by omega) qs.length qs le_rfl,
      fun c hc => chunksOfAux_length_le 25 qs.length qs c hc,
      fun i hi => chunksOfAux_full (by omega) qs.length qs i le_rfl hi⟩
  · intro oracle qs
    refine ⟨rfl, uniqByAux_sublist resultKey _ [], (uniqByAux_keys resultKey _ []).1, ?_⟩
    intro r hr
    rcases uniqByAux_complete resultKey (shapedResults oracle qs) [] r hr with hs | ho
    · simp at hs
    · exact ho

theorem C8_batch25_and_case_sensitive_dedup_witness :
    (chunksOf 25 [(⟨SearchQueryType.FREEFORM, "SCP-173", some primarySite⟩ :
        SearchQuery)]).flatten =
      [(⟨SearchQueryType.FREEFORM, "SCP-173", some primarySite⟩ :
        SearchQuery)] ∧
    ([(⟨SearchQueryType.FREEFORM, "SCP-173", some primarySite⟩ :
        SearchQuery)]).length ≤ 25 :=
  ⟨(C8_batch25_and_case_sensitive_dedup.1
      [(⟨SearchQueryType.FREEFORM, "SCP-173", some primarySite⟩ :
        SearchQuery)]).1,
    (C8_batch25_and_case_sensitive_dedup.1
      [(⟨SearchQueryType.FREEFORM, "SCP-173", some primarySite⟩ :
        SearchQuery)]).2.1
      [(⟨SearchQueryType.FREEFORM, "SCP-173", some primarySite⟩ :
        SearchQuery)] (by decide)⟩

end Crombird
